import Mathlib

/-!
Verification of the in-memory trading-account ledger of this repository.

The repository contains two near-duplicate implementations of the ledger:
`3_crew/engineering_team/output/accounts.py` (modelled here in namespace
`Accounts1`) and `3_crew/engineering_team/output2/accounts.py` (namespace
`Accounts2`).  Each Python method is translated line by line:

* Python floats are modelled as exact rationals (`ℚ`); Python's
  `round(x, 2)` (round-half-to-even) is modelled exactly by `pyRound2`.
* Python dicts holding share quantities are modelled as association lists
  (first-occurrence lookup, in-place update, deletion of the first entry).
* A method that can raise returns `PyResult`, whose `exn` constructor
  carries the state of the object at the moment the exception is raised,
  so that the atomicity of failed operations is a provable statement and
  not an artifact of the encoding.
* Transaction timestamps (`datetime.datetime.now()`) are real-time values
  and are omitted from the records; no statement below depends on them.
* Python's dynamic numeric arguments for share quantities are modelled by
  `PyNum` (an `int` or a `float` payload), so that the `isinstance`
  check of implementation 1 and its absence in implementation 2 are
  both expressible.

A separate small heap model (`Mem`, further down) captures Python's
reference semantics for the `.copy()` snapshot accessors.
-/

/-- Model of Python's `str.upper()` for ASCII strings: uppercase every
character (only `'a'`–`'z'` are changed by `Char.toUpper`). -/
def pyUpper (s : String) : String := ⟨s.data.map Char.toUpper⟩

/-- Round-half-to-even to an integer, the rounding mode of Python's
built-in `round`. -/
def rhe (x : ℚ) : ℤ :=
  if x - ⌊x⌋ < (1 : ℚ)/2 then ⌊x⌋
  else if x - ⌊x⌋ > (1 : ℚ)/2 then ⌊x⌋ + 1
  else if Even ⌊x⌋ then ⌊x⌋ else ⌊x⌋ + 1

/-- Model of Python's `round(x, 2)`. -/
def pyRound2 (x : ℚ) : ℚ := (rhe (x * 100) : ℚ) / 100

/-- The error kinds of the ledger (spec names; in the Python source the
first two are `ValueError`s and the last three are `ValueError`,
`InsufficientFundsError`, `InsufficientSharesError`). -/
inductive Err where
  | invalidAmount : Err
  | invalidQuantity : Err
  | insufficientFunds : Err
  | insufficientShares : Err
  | unknownSymbol : Err
deriving DecidableEq

/-- Outcome of a Python method on an object of state `σ`: either a normal
return carrying the updated state, or a raised exception carrying the
state of the object at the moment of the raise. -/
inductive PyResult (σ : Type) where
  | ok : σ → PyResult σ
  | exn : Err → σ → PyResult σ
deriving DecidableEq

/-- The state after the call, whether it returned or raised (a Python
caller that catches the exception observes exactly this state). -/
def PyResult.state {σ : Type} : PyResult σ → σ
  | .ok s => s
  | .exn _ s => s

/-- A numeric argument of a dynamically-typed Python function: either an
`int` or a `float` (modelled exactly as a rational). -/
inductive PyNum where
  | int : ℤ → PyNum
  | float : ℚ → PyNum
deriving DecidableEq

/-- The numeric value of the argument. -/
def PyNum.toQ : PyNum → ℚ
  | .int n => (n : ℚ)
  | .float x => x

/-- Model of `isinstance(q, int)`. -/
def PyNum.isInt : PyNum → Bool
  | .int _ => true
  | .float _ => false

/-- First-occurrence lookup in an association list: `d.get(k)` on a
Python dict (whose keys are unique, so first occurrence is the only one). -/
def getVal? : List (String × ℚ) → String → Option ℚ
  | [], _ => none
  | (k', v') :: t, k => if k' = k then some v' else getVal? t k

/-- `d.get(k, dflt)` on a Python dict. -/
def getValD (h : List (String × ℚ)) (k : String) (dflt : ℚ) : ℚ :=
  (getVal? h k).getD dflt

/-- `d[k] = v` on a Python dict: replace the value at the first occurrence
of `k`, or append a fresh entry (Python dicts preserve insertion order). -/
def setKey : List (String × ℚ) → String → ℚ → List (String × ℚ)
  | [], k, v => [(k, v)]
  | (k', v') :: t, k, v => if k' = k then (k, v) :: t else (k', v') :: setKey t k v

/-- `del d[k]` on a Python dict: remove the first occurrence of `k`. -/
def delKey : List (String × ℚ) → String → List (String × ℚ)
  | [], _ => []
  | (k', v') :: t, k => if k' = k then t else (k', v') :: delKey t k

/-- `get_share_price` — identical module-level function in both
`output/accounts.py` and `output2/accounts.py`: a fixed three-symbol
price table consulted at `symbol.upper()`; `none` models the
`ValueError("Unknown symbol: ...")` raise. -/
def get_share_price (symbol : String) : Option ℚ :=
  getVal? [("AAPL", 150), ("GOOGL", 2800), ("TSLA", 700)] (pyUpper symbol)

namespace Accounts1

/-- A transaction record of `output/accounts.py`: a dict with keys
`type`, `amount` (rounded to 2 places), and optionally `symbol`
(uppercased), `quantity`, `price_per_share` (rounded).  The `timestamp`
key (wall-clock time) is omitted from the model. -/
structure TxRec where
  type : String
  amount : ℚ
  symbol : Option String
  quantity : Option ℚ
  price_per_share : Option ℚ
deriving DecidableEq

/-- `Account.__init__` state of `output/accounts.py`. -/
structure Account where
  account_id : String
  cash_balance : ℚ
  holdings : List (String × ℚ)
  transactions : List TxRec
deriving DecidableEq

/-- `Account.__init__`. -/
def mkAccount (account_id : String) : Account :=
  { account_id := account_id, cash_balance := 0, holdings := [], transactions := [] }

/-- `Account._record_transaction`: `amount` and `price_per_share` are
rounded to two places; `symbol` is stored uppercased, and only when
truthy (non-empty). -/
def record_transaction (a : Account) (transaction_type : String) (amount : ℚ)
    (symbol : Option String) (quantity : Option ℚ) (price_per_share : Option ℚ) : Account :=
  { a with transactions := a.transactions ++
      [{ type := transaction_type,
         amount := pyRound2 amount,
         symbol := match symbol with
           | some s => if s = "" then none else some (pyUpper s)
           | none => none,
         quantity := quantity,
         price_per_share := price_per_share.map pyRound2 }] }

/-- `Account.deposit` (the `isinstance(amount, (int, float))` guard is
vacuous in this numeric model). -/
def deposit (a : Account) (amount : ℚ) : PyResult Account :=
  if amount ≤ 0 then .exn .invalidAmount a
  else .ok (record_transaction { a with cash_balance := a.cash_balance + amount }
      "deposit" amount none none none)

/-- `Account.withdraw`. -/
def withdraw (a : Account) (amount : ℚ) : PyResult Account :=
  if amount ≤ 0 then .exn .invalidAmount a
  else if amount > a.cash_balance then .exn .insufficientFunds a
  else .ok (record_transaction { a with cash_balance := a.cash_balance - amount }
      "withdrawal" amount none none none)

/-- `Account.buy_shares`. -/
def buy_shares (a : Account) (symbol : String) (quantity : PyNum) : PyResult Account :=
  if quantity.isInt = false ∨ quantity.toQ ≤ 0 then .exn .invalidQuantity a
  else
    -- symbol = symbol.upper(); price_per_share = get_share_price(symbol)
    match get_share_price (pyUpper symbol) with
    | none => .exn .unknownSymbol a
    | some price_per_share =>
      -- total_cost = price_per_share * quantity
      if price_per_share * quantity.toQ > a.cash_balance then .exn .insufficientFunds a
      else .ok (record_transaction
          { a with
            cash_balance := a.cash_balance - price_per_share * quantity.toQ,
            holdings := setKey a.holdings (pyUpper symbol)
              (getValD a.holdings (pyUpper symbol) 0 + quantity.toQ) }
          "buy" (price_per_share * quantity.toQ) (some (pyUpper symbol))
          (some quantity.toQ) (some price_per_share))

/-- `Account.sell_shares` (note: the holdings-sufficiency check is
evaluated before the price lookup). -/
def sell_shares (a : Account) (symbol : String) (quantity : PyNum) : PyResult Account :=
  if quantity.isInt = false ∨ quantity.toQ ≤ 0 then .exn .invalidQuantity a
  else
    -- symbol = symbol.upper(); if symbol not in holdings or holdings[symbol] < quantity
    if getVal? a.holdings (pyUpper symbol) = none ∨
        getValD a.holdings (pyUpper symbol) 0 < quantity.toQ then
      .exn .insufficientShares a
    else
      match get_share_price (pyUpper symbol) with
      | none => .exn .unknownSymbol a
      | some price_per_share =>
        -- holdings[symbol] -= quantity; if holdings[symbol] == 0: del holdings[symbol]
        .ok (record_transaction
            { a with
              cash_balance := a.cash_balance + price_per_share * quantity.toQ,
              holdings :=
                if getValD a.holdings (pyUpper symbol) 0 - quantity.toQ = 0 then
                  delKey (setKey a.holdings (pyUpper symbol)
                    (getValD a.holdings (pyUpper symbol) 0 - quantity.toQ)) (pyUpper symbol)
                else
                  setKey a.holdings (pyUpper symbol)
                    (getValD a.holdings (pyUpper symbol) 0 - quantity.toQ) }
            "sell" (price_per_share * quantity.toQ) (some (pyUpper symbol))
            (some quantity.toQ) (some price_per_share))

/-- `Account.get_holdings`: `self.holdings.copy()` (value snapshot; the
reference-level behavior is studied in the `Mem` model below). -/
def get_holdings (a : Account) : List (String × ℚ) := a.holdings

/-- The loop body of `Account.get_portfolio_value`: the `try`/`except
ValueError: pass` around each price lookup makes the loop total — a
symbol without a price contributes nothing. -/
def holdingsValueLoop : List (String × ℚ) → ℚ → ℚ
  | [], acc => acc
  | (s, q) :: t, acc =>
    match get_share_price s with
    | some p => holdingsValueLoop t (acc + p * q)
    | none => holdingsValueLoop t acc

/-- `Account.get_portfolio_value`: `round(cash + holdings value, 2)`. -/
def get_portfolio_value (a : Account) : ℚ :=
  pyRound2 (a.cash_balance + holdingsValueLoop a.holdings 0)

/-- `sum(t["amount"] for t in transactions if t["type"] == "deposit")`. -/
def totalDeposits (ts : List TxRec) : ℚ :=
  (ts.filter (fun t => t.type = "deposit")).foldl (fun acc t => acc + t.amount) 0

/-- `Account.get_profit_or_loss`. -/
def get_profit_or_loss (a : Account) : ℚ :=
  pyRound2 (get_portfolio_value a - totalDeposits a.transactions)

/-- `Account.get_transaction_history`: `self.transactions.copy()`. -/
def get_transaction_history (a : Account) : List TxRec := a.transactions

end Accounts1

namespace Accounts2

/-- A `Transaction` object of `output2/accounts.py` (fields stored
verbatim, no rounding; the `timestamp` field is omitted). -/
structure Tx where
  transaction_id : ℕ
  type : String
  amount : ℚ
  symbol : Option String
  quantity : Option ℚ
  price_per_share : Option ℚ
deriving DecidableEq

/-- `Account.__init__` state of `output2/accounts.py`. -/
structure Account where
  account_id : String
  balance : ℚ
  holdings : List (String × ℚ)
  transactions : List Tx
  initial_deposit : ℚ
  next_transaction_id : ℕ
deriving DecidableEq

/-- `Account.__init__`. -/
def mkAccount (account_id : String) : Account :=
  { account_id := account_id, balance := 0, holdings := [], transactions := [],
    initial_deposit := 0, next_transaction_id := 1 }

/-- `Account._add_transaction`. -/
def add_transaction (a : Account) (type : String) (amount : ℚ)
    (symbol : Option String) (quantity : Option ℚ) (price_per_share : Option ℚ) : Account :=
  { a with
    transactions := a.transactions ++
      [{ transaction_id := a.next_transaction_id, type := type, amount := amount,
         symbol := symbol, quantity := quantity, price_per_share := price_per_share }],
    next_transaction_id := a.next_transaction_id + 1 }

/-- `Account.deposit`. -/
def deposit (a : Account) (amount : ℚ) : PyResult Account :=
  if amount ≤ 0 then .exn .invalidAmount a
  else .ok (add_transaction
      { a with balance := a.balance + amount, initial_deposit := a.initial_deposit + amount }
      "DEPOSIT" amount none none none)

/-- `Account.withdraw`. -/
def withdraw (a : Account) (amount : ℚ) : PyResult Account :=
  if amount ≤ 0 then .exn .invalidAmount a
  else if amount > a.balance then .exn .insufficientFunds a
  else .ok (add_transaction { a with balance := a.balance - amount }
      "WITHDRAWAL" amount none none none)

/-- `Account.buy` — note: no `isinstance` check on `quantity`, and the
raw (non-uppercased) `symbol` is used as the holdings key; only the
price lookup inside `get_share_price` uppercases. -/
def buy (a : Account) (symbol : String) (quantity : PyNum) : PyResult Account :=
  if quantity.toQ ≤ 0 then .exn .invalidQuantity a
  else
    match get_share_price symbol with
    | none => .exn .unknownSymbol a
    | some price =>
      -- cost = price * quantity
      if price * quantity.toQ > a.balance then .exn .insufficientFunds a
      else .ok (add_transaction
          { a with
            balance := a.balance - price * quantity.toQ,
            holdings := setKey a.holdings symbol (getValD a.holdings symbol 0 + quantity.toQ) }
          "BUY" (price * quantity.toQ) (some symbol) (some quantity.toQ) (some price))

/-- `Account.sell` — the holdings-sufficiency check precedes the price
lookup; the raw `symbol` is the holdings key. -/
def sell (a : Account) (symbol : String) (quantity : PyNum) : PyResult Account :=
  if quantity.toQ ≤ 0 then .exn .invalidQuantity a
  else
    -- current_qty = holdings.get(symbol, 0)
    if getValD a.holdings symbol 0 < quantity.toQ then .exn .insufficientShares a
    else
      match get_share_price symbol with
      | none => .exn .unknownSymbol a
      | some price =>
        -- revenue = price * quantity; new_qty = current_qty - quantity
        .ok (add_transaction
            { a with
              balance := a.balance + price * quantity.toQ,
              holdings :=
                if getValD a.holdings symbol 0 - quantity.toQ = 0 then delKey a.holdings symbol
                else setKey a.holdings symbol (getValD a.holdings symbol 0 - quantity.toQ) }
            "SELL" (price * quantity.toQ) (some symbol) (some quantity.toQ) (some price))

/-- The loop of `Account.get_portfolio_value`: a failed price lookup
propagates (there is no `try`/`except` in this implementation). -/
def portfolioLoop : List (String × ℚ) → ℚ → Except Err ℚ
  | [], total => .ok total
  | (s, q) :: t, total =>
    match get_share_price s with
    | some p => portfolioLoop t (total + p * q)
    | none => .error .unknownSymbol

/-- `Account.get_portfolio_value`. -/
def get_portfolio_value (a : Account) : Except Err ℚ :=
  portfolioLoop a.holdings a.balance

/-- `Account.get_holdings`: `self.holdings.copy()`. -/
def get_holdings (a : Account) : List (String × ℚ) := a.holdings

/-- `Account.get_profit_loss`: `get_portfolio_value() - initial_deposit`
(a raise inside `get_portfolio_value` propagates). -/
def get_profit_loss (a : Account) : Except Err ℚ :=
  match get_portfolio_value a with
  | .ok v => .ok (v - a.initial_deposit)
  | .error e => .error e

/-- `Account.get_transactions`: `self.transactions.copy()`. -/
def get_transactions (a : Account) : List Tx := a.transactions

end Accounts2

/-- One call of a mutating operation, with its arguments. -/
inductive Op where
  | deposit : ℚ → Op
  | withdraw : ℚ → Op
  | buy : String → PyNum → Op
  | sell : String → PyNum → Op

/-- Dispatch one operation on an implementation-1 account. -/
def Accounts1.step (a : Accounts1.Account) : Op → PyResult Accounts1.Account
  | .deposit x => Accounts1.deposit a x
  | .withdraw x => Accounts1.withdraw a x
  | .buy s q => Accounts1.buy_shares a s q
  | .sell s q => Accounts1.sell_shares a s q

/-- Run a sequence of operation calls on an implementation-1 account; a
call that raises leaves the account in the state carried by the
exception (the caller catches and continues). -/
def Accounts1.run (a : Accounts1.Account) (ops : List Op) : Accounts1.Account :=
  ops.foldl (fun a op => (Accounts1.step a op).state) a

/-- A fresh implementation-1 account. -/
def Accounts1.init : Accounts1.Account := Accounts1.mkAccount "acct"

/-- Dispatch one operation on an implementation-2 account. -/
def Accounts2.step (a : Accounts2.Account) : Op → PyResult Accounts2.Account
  | .deposit x => Accounts2.deposit a x
  | .withdraw x => Accounts2.withdraw a x
  | .buy s q => Accounts2.buy a s q
  | .sell s q => Accounts2.sell a s q

/-- Run a sequence of operation calls on an implementation-2 account. -/
def Accounts2.run (a : Accounts2.Account) (ops : List Op) : Accounts2.Account :=
  ops.foldl (fun a op => (Accounts2.step a op).state) a

/-- A fresh implementation-2 account. -/
def Accounts2.init : Accounts2.Account := Accounts2.mkAccount "acct"

/-- Replay of the cash effect of an implementation-1 transaction record:
deposits and sell proceeds add, withdrawals and buy costs subtract. -/
def replayBalStep1 (b : ℚ) (t : Accounts1.TxRec) : ℚ :=
  if t.type = "deposit" then b + t.amount
  else if t.type = "withdrawal" then b - t.amount
  else if t.type = "buy" then b - t.amount
  else if t.type = "sell" then b + t.amount
  else b

/-- Cash balance obtained by replaying a recorded implementation-1
transaction history from the empty initial state. -/
def replayBalance1 (ts : List Accounts1.TxRec) : ℚ := ts.foldl replayBalStep1 0

/-- Replay of the holdings effect of an implementation-1 record. -/
def replayHoldStep1 (h : List (String × ℚ)) (t : Accounts1.TxRec) : List (String × ℚ) :=
  if t.type = "buy" then
    match t.symbol, t.quantity with
    | some s, some q => setKey h s (getValD h s 0 + q)
    | _, _ => h
  else if t.type = "sell" then
    match t.symbol, t.quantity with
    | some s, some q =>
      let newq := getValD h s 0 - q
      let h1 := setKey h s newq
      if newq = 0 then delKey h1 s else h1
    | _, _ => h
  else h

/-- Holdings obtained by replaying a recorded implementation-1 history. -/
def replayHoldings1 (ts : List Accounts1.TxRec) : List (String × ℚ) :=
  ts.foldl replayHoldStep1 []

/-- Replay of the cash effect of an implementation-2 transaction. -/
def replayBalStep2 (b : ℚ) (t : Accounts2.Tx) : ℚ :=
  if t.type = "DEPOSIT" then b + t.amount
  else if t.type = "WITHDRAWAL" then b - t.amount
  else if t.type = "BUY" then b - t.amount
  else if t.type = "SELL" then b + t.amount
  else b

/-- Cash balance obtained by replaying a recorded implementation-2
transaction history from the empty initial state. -/
def replayBalance2 (ts : List Accounts2.Tx) : ℚ := ts.foldl replayBalStep2 0

/-- Replay of the holdings effect of an implementation-2 transaction. -/
def replayHoldStep2 (h : List (String × ℚ)) (t : Accounts2.Tx) : List (String × ℚ) :=
  if t.type = "BUY" then
    match t.symbol, t.quantity with
    | some s, some q => setKey h s (getValD h s 0 + q)
    | _, _ => h
  else if t.type = "SELL" then
    match t.symbol, t.quantity with
    | some s, some q =>
      let new_qty := getValD h s 0 - q
      if new_qty = 0 then delKey h s else setKey h s new_qty
    | _, _ => h
  else h

/-- Holdings obtained by replaying a recorded implementation-2 history. -/
def replayHoldings2 (ts : List Accounts2.Tx) : List (String × ℚ) :=
  ts.foldl replayHoldStep2 []

/-- A heap for the reference-semantics model of the snapshot accessors:
transaction-record objects, list objects (lists of record addresses) and
dict objects.  `self.transactions.copy()` allocates a fresh list cell
holding the same record addresses; `self.holdings.copy()` allocates a
fresh dict cell holding the same (immutable) entries. -/
structure Mem where
  recCells : List Accounts1.TxRec
  listCells : List (List ℕ)
  dictCells : List (List (String × ℚ))
deriving DecidableEq

/-- An account as seen by the heap model: the addresses of its internal
`transactions` list object and `holdings` dict object. -/
structure AccountRef where
  txListAddr : ℕ
  holdingsAddr : ℕ
deriving DecidableEq

/-- Dereference a list address. -/
def Mem.readList (m : Mem) (a : ℕ) : List ℕ := m.listCells.getD a []

/-- In-place mutation of the list object at an address (the caller
appending to / popping from / overwriting a list it holds). -/
def Mem.writeList (m : Mem) (a : ℕ) (l : List ℕ) : Mem :=
  { m with listCells := m.listCells.set a l }

/-- Dereference a dict address. -/
def Mem.readDict (m : Mem) (a : ℕ) : List (String × ℚ) := m.dictCells.getD a []

/-- In-place mutation of the dict object at an address. -/
def Mem.writeDict (m : Mem) (a : ℕ) (d : List (String × ℚ)) : Mem :=
  { m with dictCells := m.dictCells.set a d }

/-- Dereference a record address. -/
def Mem.readRec (m : Mem) (a : ℕ) : Accounts1.TxRec :=
  m.recCells.getD a { type := "", amount := 0, symbol := none, quantity := none,
                      price_per_share := none }

/-- In-place mutation of the record object at an address (the caller
assigning to a key of a transaction dict it obtained). -/
def Mem.writeRec (m : Mem) (a : ℕ) (r : Accounts1.TxRec) : Mem :=
  { m with recCells := m.recCells.set a r }

/-- `get_transaction_history` in the reference model:
`self.transactions.copy()` allocates a NEW list cell containing the SAME
record addresses, and returns its address. -/
def historyCopy (m : Mem) (acct : AccountRef) : Mem × ℕ :=
  ({ m with listCells := m.listCells ++ [m.readList acct.txListAddr] }, m.listCells.length)

/-- `get_holdings` in the reference model: `self.holdings.copy()`
allocates a new dict cell with the same entries. -/
def holdingsCopy (m : Mem) (acct : AccountRef) : Mem × ℕ :=
  ({ m with dictCells := m.dictCells ++ [m.readDict acct.holdingsAddr] }, m.dictCells.length)

/-- The transaction history a later call on the account reports: the
record contents behind the account's internal list of addresses. -/
def historyView (m : Mem) (acct : AccountRef) : List Accounts1.TxRec :=
  (m.readList acct.txListAddr).map m.readRec

/-- The holdings a later call on the account reports. -/
def holdingsView (m : Mem) (acct : AccountRef) : List (String × ℚ) :=
  m.readDict acct.holdingsAddr

/-- Specification-side mark-to-market sum: each held symbol contributes
`price × quantity` when the oracle prices it and `0` otherwise. -/
def pricedSum (h : List (String × ℚ)) : ℚ :=
  (h.map (fun p =>
    match get_share_price p.1 with
    | some pr => pr * p.2
    | none => 0)).sum

/-- C4 counterexample: an implementation-2 account holding a symbol the
oracle does not price ("XYZ"); `get_portfolio_value` raises UnknownSymbol
instead of skipping the symbol. -/
def c4acct : Accounts2.Account :=
  { account_id := "acct", balance := 0, holdings := [("XYZ", 1)], transactions := [],
    initial_deposit := 0, next_transaction_id := 1 }

/-- C6 counterexample: the implementation-2 account before the
fractional-quantity buy. -/
def c6pre : Accounts2.Account :=
  { account_id := "acct", balance := 1000, holdings := [], transactions := [],
    initial_deposit := 0, next_transaction_id := 1 }

/-- C6 counterexample: the state implementation 2 actually reaches after
`buy("AAPL", 2.5)` — 2.5 shares held, 375 spent. -/
def c6post : Accounts2.Account :=
  { account_id := "acct", balance := 625, holdings := [("AAPL", 5/2)],
    transactions := [{ transaction_id := 1, type := "BUY", amount := 375,
                       symbol := some "AAPL", quantity := some (5/2),
                       price_per_share := some 150 }],
    initial_deposit := 0, next_transaction_id := 2 }

/-- The account produced by a successful implementation-1 buy (the
result of `buy_shares` in its success branch). -/
def buyOutcome1 (a : Accounts1.Account) (s1 : String) (q : ℤ) (p : ℚ) : Accounts1.Account :=
  Accounts1.record_transaction
    { a with
      cash_balance := a.cash_balance - p * (q : ℚ),
      holdings := setKey a.holdings (pyUpper s1)
        (getValD a.holdings (pyUpper s1) 0 + (q : ℚ)) }
    "buy" (p * (q : ℚ)) (some (pyUpper s1)) (some (q : ℚ)) (some p)

/-- The account produced by a successful implementation-1 sell. -/
def sellOutcome1 (b : Accounts1.Account) (s1 : String) (q : ℤ) (p : ℚ) : Accounts1.Account :=
  Accounts1.record_transaction
    { b with
      cash_balance := b.cash_balance + p * (q : ℚ),
      holdings :=
        if getValD b.holdings (pyUpper s1) 0 - (q : ℚ) = 0 then
          delKey (setKey b.holdings (pyUpper s1)
            (getValD b.holdings (pyUpper s1) 0 - (q : ℚ))) (pyUpper s1)
        else
          setKey b.holdings (pyUpper s1) (getValD b.holdings (pyUpper s1) 0 - (q : ℚ)) }
    "sell" (p * (q : ℚ)) (some (pyUpper s1)) (some (q : ℚ)) (some p)

/-- The account produced by a successful implementation-2 buy. -/
def buyOutcome2 (a : Accounts2.Account) (s : String) (qv : ℚ) (p : ℚ) : Accounts2.Account :=
  Accounts2.add_transaction
    { a with
      balance := a.balance - p * qv,
      holdings := setKey a.holdings s (getValD a.holdings s 0 + qv) }
    "BUY" (p * qv) (some s) (some qv) (some p)

/-- The account produced by a successful implementation-2 sell. -/
def sellOutcome2 (b : Accounts2.Account) (s : String) (qv : ℚ) (p : ℚ) : Accounts2.Account :=
  Accounts2.add_transaction
    { b with
      balance := b.balance + p * qv,
      holdings :=
        if getValD b.holdings s 0 - qv = 0 then delKey b.holdings s
        else setKey b.holdings s (getValD b.holdings s 0 - qv) }
    "SELL" (p * qv) (some s) (some qv) (some p)

/-- C8 witness: a concrete account with cash 1500 buying and selling
10 AAPL shares at price 150. -/
def c8acct1 : Accounts1.Account :=
  { account_id := "acct", cash_balance := 1500, holdings := [], transactions := [] }

/-- An operation whose cash amount survives the 2-decimal rounding that
implementation 1 applies when recording it (buy/sell amounts always do,
because the oracle's prices are whole numbers). -/
def opExact : Op → Prop
  | Op.deposit x => pyRound2 x = x
  | Op.withdraw x => pyRound2 x = x
  | Op.buy _ _ => True
  | Op.sell _ _ => True

/-- C9 counterexample data: a heap holding one deposit record at address
0, an account whose transactions list (address 0) references it, and an
empty holdings dict. -/
def c9mem : Mem :=
  { recCells := [{ type := "deposit", amount := 100, symbol := none, quantity := none,
                   price_per_share := none }],
    listCells := [[0]], dictCells := [[]] }

/-- C9 counterexample data: the account's internal list and dict
addresses. -/
def c9acct : AccountRef := { txListAddr := 0, holdingsAddr := 0 }

/-- C5 counterexample data: an implementation-2 account with a
manually-injected holding of 5 shares of the oracle-unknown symbol
"XYZ" (stored under its normalized, uppercase spelling). -/
def c5acct : Accounts2.Account :=
  { account_id := "acct", balance := 0, holdings := [("XYZ", 5)], transactions := [],
    initial_deposit := 0, next_transaction_id := 1 }

/-- C5 counterexample data: the implementation-2 account reached from a
fresh account by `deposit(750)` then `buy("aapl", 5)` — the holdings
key is the raw lowercase symbol. -/
def c5reach : Accounts2.Account :=
  { account_id := "acct", balance := 0, holdings := [("aapl", 5)],
    transactions := [{ transaction_id := 1, type := "DEPOSIT", amount := 750, symbol := none,
                       quantity := none, price_per_share := none },
                     { transaction_id := 2, type := "BUY", amount := 750,
                       symbol := some "aapl", quantity := some 5,
                       price_per_share := some 150 }],
    initial_deposit := 750, next_transaction_id := 3 }

theorem charOfNat_toNat {n : ℕ} (h1 : 65 ≤ n) (h2 : n ≤ 90) :
    (Char.ofNat n).toNat = n := by
  unfold Char.ofNat
  split <;> rename_i h
  · rfl
  · exact absurd (Or.inl (by omega)) h

theorem toNat_toUpper (c : Char) :
    c.toUpper.toNat = if 97 ≤ c.toNat ∧ c.toNat ≤ 122 then c.toNat - 32 else c.toNat := by
  unfold Char.toUpper
  split <;> rename_i h
  · rw [if_pos h, charOfNat_toNat (by omega) (by omega)]
  · rw [if_neg h]

theorem char_toNat_inj {c d : Char} (h : c.toNat = d.toNat) : c = d := by
  cases c with
  | mk v1 p1 =>
    cases d with
    | mk v2 p2 =>
      simp only [Char.toNat] at h
      congr 1
      exact UInt32.ext h

theorem charToUpper_idem (c : Char) : c.toUpper.toUpper = c.toUpper := by
  apply char_toNat_inj
  rw [toNat_toUpper c]
  by_cases h : 97 ≤ c.toNat ∧ c.toNat ≤ 122
  · rw [if_pos h, toNat_toUpper, toNat_toUpper c, if_pos h, if_neg (by omega)]
  · rw [if_neg h]
    have hc : c.toUpper = c := char_toNat_inj (by rw [toNat_toUpper, if_neg h])
    rw [hc, toNat_toUpper, if_neg h]

theorem pyUpper_idem (s : String) : pyUpper (pyUpper s) = pyUpper s := by
  unfold pyUpper
  congr 1
  rw [List.map_map]
  exact List.map_congr_left (fun c _ => charToUpper_idem c)

theorem rhe_intCast (k : ℤ) : rhe (k : ℚ) = k := by
  unfold rhe
  rw [Int.floor_intCast]
  rw [if_pos]
  rw [sub_self]
  norm_num

/-- `round(x, 2)` is the identity on rationals that are already an exact
multiple of `1/100` (in particular on integers). -/
theorem pyRound2_eq_self {x : ℚ} (k : ℤ) (hk : x * 100 = (k : ℚ)) : pyRound2 x = x := by
  unfold pyRound2
  rw [hk, rhe_intCast, ← hk]
  field_simp

theorem pyRound2_intCast (k : ℤ) : pyRound2 (k : ℚ) = k :=
  pyRound2_eq_self (k * 100) (by push_cast; ring)

theorem get_share_price_upper (s : String) :
    get_share_price (pyUpper s) = get_share_price s := by
  unfold get_share_price
  rw [pyUpper_idem]

theorem get_share_price_pos {s : String} {p : ℚ} (h : get_share_price s = some p) :
    0 < p := by
  unfold get_share_price at h
  simp only [getVal?] at h
  split at h
  · rw [Option.some_inj] at h; subst h; norm_num
  · split at h
    · rw [Option.some_inj] at h; subst h; norm_num
    · split at h
      · rw [Option.some_inj] at h; subst h; norm_num
      · exact Option.noConfusion h

theorem getVal?_setKey_self (h : List (String × ℚ)) (k : String) (v : ℚ) :
    getVal? (setKey h k v) k = some v := by
  induction h with
  | nil => simp [setKey, getVal?]
  | cons p t ih =>
    obtain ⟨k', v'⟩ := p
    unfold setKey
    split <;> rename_i hk
    · simp [getVal?]
    · simpa [getVal?, hk] using ih

theorem setKey_getVal?_self {h : List (String × ℚ)} {k : String} {w : ℚ}
    (hw : getVal? h k = some w) : setKey h k w = h := by
  induction h with
  | nil => simp [getVal?] at hw
  | cons p t ih =>
    obtain ⟨k', v'⟩ := p
    unfold getVal? at hw
    unfold setKey
    split <;> rename_i hk
    · rw [if_pos hk, Option.some_inj] at hw
      subst hk
      rw [hw]
    · rw [if_neg hk] at hw
      rw [ih hw]

theorem setKey_setKey (h : List (String × ℚ)) (k : String) (v w : ℚ) :
    setKey (setKey h k v) k w = setKey h k w := by
  induction h with
  | nil => simp [setKey]
  | cons p t ih =>
    obtain ⟨k', v'⟩ := p
    by_cases hk : k' = k
    · subst hk
      simp [setKey]
    · simp [setKey, hk, ih]

theorem delKey_setKey_none {h : List (String × ℚ)} {k : String} (v : ℚ)
    (hn : getVal? h k = none) : delKey (setKey h k v) k = h := by
  induction h with
  | nil => simp [setKey, delKey]
  | cons p t ih =>
    obtain ⟨k', v'⟩ := p
    unfold getVal? at hn
    split at hn
    · exact Option.noConfusion hn
    · rename_i hk
      unfold setKey
      rw [if_neg hk]
      unfold delKey
      rw [if_neg hk, ih hn]

theorem getVal?_mem {h : List (String × ℚ)} {k : String} {w : ℚ}
    (hw : getVal? h k = some w) : (k, w) ∈ h := by
  induction h with
  | nil => simp [getVal?] at hw
  | cons p t ih =>
    obtain ⟨k', v'⟩ := p
    unfold getVal? at hw
    split at hw <;> rename_i hk
    · rw [Option.some_inj] at hw
      subst hk hw
      exact List.mem_cons_self _ _
    · exact List.mem_cons_of_mem _ (ih hw)

theorem getValD_pos_of_wf {h : List (String × ℚ)} (hwf : ∀ p ∈ h, 0 < p.2)
    (k : String) : 0 ≤ getValD h k 0 := by
  unfold getValD
  cases hv : getVal? h k with
  | none => simp
  | some w => simpa using (hwf _ (getVal?_mem hv)).le

/-- C1 helper: an implementation-1 operation that raises leaves the
account exactly as it was. -/
theorem Accounts1.step_exn_eq1 {a a' : Accounts1.Account} {op : Op} {e : Err}
    (h : Accounts1.step a op = PyResult.exn e a') : a' = a := by
  cases op with
  | deposit x =>
    simp only [Accounts1.step] at h
    unfold Accounts1.deposit at h
    split at h
    · cases h; rfl
    · cases h
  | withdraw x =>
    simp only [Accounts1.step] at h
    unfold Accounts1.withdraw at h
    split at h
    · cases h; rfl
    · split at h
      · cases h; rfl
      · cases h
  | buy s q =>
    simp only [Accounts1.step] at h
    unfold Accounts1.buy_shares at h
    split at h
    · cases h; rfl
    · split at h
      · cases h; rfl
      · split at h
        · cases h; rfl
        · cases h
  | sell s q =>
    simp only [Accounts1.step] at h
    unfold Accounts1.sell_shares at h
    split at h
    · cases h; rfl
    · split at h
      · cases h; rfl
      · split at h
        · cases h; rfl
        · cases h

/-- C1 helper: an implementation-2 operation that raises leaves the
account exactly as it was. -/
theorem Accounts2.step_exn_eq2 {a a' : Accounts2.Account} {op : Op} {e : Err}
    (h : Accounts2.step a op = PyResult.exn e a') : a' = a := by
  cases op with
  | deposit x =>
    simp only [Accounts2.step] at h
    unfold Accounts2.deposit at h
    split at h
    · cases h; rfl
    · cases h
  | withdraw x =>
    simp only [Accounts2.step] at h
    unfold Accounts2.withdraw at h
    split at h
    · cases h; rfl
    · split at h
      · cases h; rfl
      · cases h
  | buy s q =>
    simp only [Accounts2.step] at h
    unfold Accounts2.buy at h
    split at h
    · cases h; rfl
    · split at h
      · cases h; rfl
      · split at h
        · cases h; rfl
        · cases h
  | sell s q =>
    simp only [Accounts2.step] at h
    unfold Accounts2.sell at h
    split at h
    · cases h; rfl
    · split at h
      · cases h; rfl
      · split at h
        · cases h; rfl
        · cases h

/-- C1: in both implementations, every mutating operation (deposit,
withdraw, buy, sell) that raises any documented error leaves the cash
balance, the holdings mapping, the cumulative-deposits total and the
transaction sequence (the whole account state) exactly as before the
call. -/
theorem claim1_error_atomicity :
    (∀ (a a' : Accounts1.Account) (op : Op) (e : Err),
        Accounts1.step a op = PyResult.exn e a' → a' = a) ∧
    (∀ (b b' : Accounts2.Account) (op : Op) (e : Err),
        Accounts2.step b op = PyResult.exn e b' → b' = b) :=
  ⟨fun _ _ _ _ h => Accounts1.step_exn_eq1 h, fun _ _ _ _ h => Accounts2.step_exn_eq2 h⟩

/-- C1 witness: a concrete failing withdrawal (insufficient funds on a
fresh account) observed to leave the account unchanged. -/
theorem claim1_error_atomicity_witness :
    Accounts1.step Accounts1.init (Op.withdraw 5) =
      PyResult.exn Err.insufficientFunds Accounts1.init ∧
    Accounts1.init = Accounts1.init := by
  refine ⟨?_, ?_⟩
  · unfold Accounts1.step Accounts1.init Accounts1.mkAccount Accounts1.withdraw
    norm_num
  · exact claim1_error_atomicity.1 Accounts1.init Accounts1.init (Op.withdraw 5) Err.insufficientFunds
      (by unfold Accounts1.step Accounts1.init Accounts1.mkAccount Accounts1.withdraw; norm_num)

/-- C10 helper: one implementation-1 operation preserves a non-negative
cash balance (deposit adds a positive amount, withdraw and buy are
rejected when they would overdraw, sell adds non-negative proceeds). -/
theorem Accounts1.step_nonneg1 (a : Accounts1.Account) (op : Op)
    (h : 0 ≤ a.cash_balance) : 0 ≤ ((Accounts1.step a op).state).cash_balance := by
  cases op with
  | deposit x =>
    simp only [Accounts1.step]
    unfold Accounts1.deposit
    split <;> rename_i hx
    · simpa [PyResult.state] using h
    · simp only [PyResult.state, Accounts1.record_transaction]
      push_neg at hx
      linarith
  | withdraw x =>
    simp only [Accounts1.step]
    unfold Accounts1.withdraw
    split <;> rename_i hx
    · simpa [PyResult.state] using h
    · split <;> rename_i hy
      · simpa [PyResult.state] using h
      · simp only [PyResult.state, Accounts1.record_transaction]
        push_neg at hy
        linarith
  | buy s q =>
    simp only [Accounts1.step]
    unfold Accounts1.buy_shares
    split <;> rename_i hq
    · simpa [PyResult.state] using h
    · split
      · simpa [PyResult.state] using h
      · rename_i p hp
        split <;> rename_i hc
        · simpa [PyResult.state] using h
        · simp only [PyResult.state, Accounts1.record_transaction]
          push_neg at hc
          linarith
  | sell s q =>
    simp only [Accounts1.step]
    unfold Accounts1.sell_shares
    split <;> rename_i hq
    · simpa [PyResult.state] using h
    · split <;> rename_i hs
      · simpa [PyResult.state] using h
      · split
        · simpa [PyResult.state] using h
        · rename_i p hp
          simp only [PyResult.state, Accounts1.record_transaction]
          push_neg at hq
          have hp0 : 0 < p := get_share_price_pos hp
          have hq0 : 0 < q.toQ := hq.2
          nlinarith

/-- C10 helper: one implementation-2 operation preserves a non-negative
cash balance. -/
theorem Accounts2.step_nonneg2 (a : Accounts2.Account) (op : Op)
    (h : 0 ≤ a.balance) : 0 ≤ ((Accounts2.step a op).state).balance := by
  cases op with
  | deposit x =>
    simp only [Accounts2.step]
    unfold Accounts2.deposit
    split <;> rename_i hx
    · simpa [PyResult.state] using h
    · simp only [PyResult.state, Accounts2.add_transaction]
      push_neg at hx
      linarith
  | withdraw x =>
    simp only [Accounts2.step]
    unfold Accounts2.withdraw
    split <;> rename_i hx
    · simpa [PyResult.state] using h
    · split <;> rename_i hy
      · simpa [PyResult.state] using h
      · simp only [PyResult.state, Accounts2.add_transaction]
        push_neg at hy
        linarith
  | buy s q =>
    simp only [Accounts2.step]
    unfold Accounts2.buy
    split <;> rename_i hq
    · simpa [PyResult.state] using h
    · split
      · simpa [PyResult.state] using h
      · rename_i p hp
        split <;> rename_i hc
        · simpa [PyResult.state] using h
        · simp only [PyResult.state, Accounts2.add_transaction]
          push_neg at hc
          linarith
  | sell s q =>
    simp only [Accounts2.step]
    unfold Accounts2.sell
    split <;> rename_i hq
    · simpa [PyResult.state] using h
    · split <;> rename_i hs
      · simpa [PyResult.state] using h
      · split
        · simpa [PyResult.state] using h
        · rename_i p hp
          simp only [PyResult.state, Accounts2.add_transaction]
          push_neg at hq
          have hp0 : 0 < p := get_share_price_pos hp
          nlinarith

/-- C10: in every state reachable from a fresh account by any sequence of
operation calls (successful or failing), the cash balance is at least
zero, in both implementations. -/
theorem claim10_balance_nonneg :
    (∀ ops : List Op, 0 ≤ (Accounts1.run Accounts1.init ops).cash_balance) ∧
    (∀ ops : List Op, 0 ≤ (Accounts2.run Accounts2.init ops).balance) := by
  constructor
  · have gen : ∀ (ops : List Op) (a : Accounts1.Account), 0 ≤ a.cash_balance →
        0 ≤ (Accounts1.run a ops).cash_balance := by
      intro ops
      induction ops with
      | nil => intro a h; simpa [Accounts1.run] using h
      | cons op t ih =>
        intro a h
        have h1 := Accounts1.step_nonneg1 a op h
        simpa [Accounts1.run, List.foldl_cons] using ih _ h1
    exact fun ops => gen ops Accounts1.init (by norm_num [Accounts1.init, Accounts1.mkAccount])
  · have gen : ∀ (ops : List Op) (a : Accounts2.Account), 0 ≤ a.balance →
        0 ≤ (Accounts2.run a ops).balance := by
      intro ops
      induction ops with
      | nil => intro a h; simpa [Accounts2.run] using h
      | cons op t ih =>
        intro a h
        have h1 := Accounts2.step_nonneg2 a op h
        simpa [Accounts2.run, List.foldl_cons] using ih _ h1
    exact fun ops => gen ops Accounts2.init (by norm_num [Accounts2.init, Accounts2.mkAccount])

/-- C5 amended: both implementations evaluate the holdings-sufficiency
check before the oracle lookup, but each against its own holdings key —
implementation 1 against the normalized (uppercased) symbol, exactly as
the claim states, implementation 2 against the raw symbol (the claim's
normalized-key reading fails for it, see the counterexample).  With a
positive integer quantity: a held quantity at that key below the
requested one raises InsufficientShares no matter whether the oracle
knows the symbol, and a sufficient held quantity at that key for a
symbol the oracle does not know raises UnknownSymbol, in both cases
with the account unchanged. -/
theorem claim5_sell_checks_holdings_before_oracle :
    (∀ (a : Accounts1.Account) (s : String) (q : ℤ), 0 < q →
      (getValD a.holdings (pyUpper s) 0 < (q : ℚ) →
        Accounts1.sell_shares a s (PyNum.int q) = PyResult.exn Err.insufficientShares a) ∧
      ((q : ℚ) ≤ getValD a.holdings (pyUpper s) 0 → get_share_price s = none →
        Accounts1.sell_shares a s (PyNum.int q) = PyResult.exn Err.unknownSymbol a)) ∧
    (∀ (b : Accounts2.Account) (s : String) (q : ℤ), 0 < q →
      (getValD b.holdings s 0 < (q : ℚ) →
        Accounts2.sell b s (PyNum.int q) = PyResult.exn Err.insufficientShares b) ∧
      ((q : ℚ) ≤ getValD b.holdings s 0 → get_share_price s = none →
        Accounts2.sell b s (PyNum.int q) = PyResult.exn Err.unknownSymbol b)) := by
  constructor
  · intro a s q hq
    have hq' : (0 : ℚ) < (q : ℚ) := by exact_mod_cast hq
    constructor
    · intro hheld
      unfold Accounts1.sell_shares
      simp only [PyNum.isInt, PyNum.toQ]
      rw [if_neg (by push_neg; exact ⟨by simp, hq'⟩), if_pos (Or.inr hheld)]
    · intro hheld hnone
      unfold Accounts1.sell_shares
      simp only [PyNum.isInt, PyNum.toQ]
      rw [if_neg (by push_neg; exact ⟨by simp, hq'⟩)]
      rw [if_neg ?_]
      · rw [get_share_price_upper, hnone]
      · push_neg
        refine ⟨?_, hheld⟩
        intro hn
        rw [getValD, hn] at hheld
        simp at hheld
        linarith
  · intro b s q hq
    have hq' : (0 : ℚ) < (q : ℚ) := by exact_mod_cast hq
    constructor
    · intro hheld
      unfold Accounts2.sell
      simp only [PyNum.toQ]
      rw [if_neg (not_le.mpr hq'), if_pos hheld]
    · intro hheld hnone
      unfold Accounts2.sell
      simp only [PyNum.toQ]
      rw [if_neg (not_le.mpr hq'), if_neg (not_lt.mpr hheld), hnone]

/-- C5 witness: on a fresh implementation-1 account (no holdings),
selling one AAPL share raises InsufficientShares. -/
theorem claim5_witness :
    (0 : ℤ) < 1 ∧
    Accounts1.sell_shares Accounts1.init "AAPL" (PyNum.int 1) =
      PyResult.exn Err.insufficientShares Accounts1.init := by
  refine ⟨by norm_num, ?_⟩
  exact (claim5_sell_checks_holdings_before_oracle.1 Accounts1.init "AAPL" 1 (by norm_num)).1
    (by norm_num [Accounts1.init, Accounts1.mkAccount, getValD, getVal?])

theorem holdingsValueLoop_eq (h : List (String × ℚ)) (acc : ℚ) :
    Accounts1.holdingsValueLoop h acc = acc + pricedSum h := by
  induction h generalizing acc with
  | nil => simp [Accounts1.holdingsValueLoop, pricedSum]
  | cons p t ih =>
    obtain ⟨s, q⟩ := p
    unfold Accounts1.holdingsValueLoop
    cases hsp : get_share_price s with
    | none =>
      show Accounts1.holdingsValueLoop t acc = acc + pricedSum ((s, q) :: t)
      rw [ih]
      simp [pricedSum, hsp]
    | some pr =>
      show Accounts1.holdingsValueLoop t (acc + pr * q) = acc + pricedSum ((s, q) :: t)
      rw [ih]
      simp only [pricedSum, List.map_cons, List.sum_cons, hsp]
      ring

theorem portfolioLoop_eq (h : List (String × ℚ)) (acc : ℚ)
    (hall : ∀ p ∈ h, get_share_price p.1 ≠ none) :
    Accounts2.portfolioLoop h acc = Except.ok (acc + pricedSum h) := by
  induction h generalizing acc with
  | nil => simp [Accounts2.portfolioLoop, pricedSum]
  | cons p t ih =>
    obtain ⟨s, q⟩ := p
    unfold Accounts2.portfolioLoop
    cases hsp : get_share_price s with
    | none => exact absurd hsp (hall (s, q) (List.mem_cons_self _ _))
    | some pr =>
      show Accounts2.portfolioLoop t (acc + pr * q) = Except.ok (acc + pricedSum ((s, q) :: t))
      rw [ih _ (fun p hp => hall p (List.mem_cons_of_mem _ hp))]
      simp only [pricedSum, List.map_cons, List.sum_cons, hsp]
      rw [Except.ok.injEq]
      ring

/-- C4 is false as stated for implementation 2: on an account holding the
unpriced symbol "XYZ", `get_portfolio_value` propagates UnknownSymbol
rather than skipping the symbol. -/
theorem claim4_counterexample :
    Accounts2.get_portfolio_value c4acct = Except.error Err.unknownSymbol := rfl

/-- C4 amended: implementation 1's `get_portfolio_value` always returns
the (2-place-rounded) cash balance plus the priced sum of holdings, with
unpriced symbols contributing zero and no error ever propagating;
implementation 2 returns exactly the cash balance plus the priced sum
only when every held symbol is priced, and propagates UnknownSymbol
otherwise (see the counterexample). -/
theorem claim4_amended :
    (∀ a : Accounts1.Account,
      Accounts1.get_portfolio_value a = pyRound2 (a.cash_balance + pricedSum a.holdings)) ∧
    (∀ b : Accounts2.Account, (∀ p ∈ b.holdings, get_share_price p.1 ≠ none) →
      Accounts2.get_portfolio_value b = Except.ok (b.balance + pricedSum b.holdings)) := by
  constructor
  · intro a
    unfold Accounts1.get_portfolio_value
    rw [holdingsValueLoop_eq, zero_add]
  · intro b hall
    unfold Accounts2.get_portfolio_value
    rw [portfolioLoop_eq _ _ hall]

/-- C4 amended witness: on a fresh implementation-2 account (no holdings,
hypothesis trivially discharged) the portfolio value is the cash balance
plus the (empty) priced sum. -/
theorem claim4_amended_witness :
    Accounts2.get_portfolio_value Accounts2.init =
      Except.ok (Accounts2.init.balance + pricedSum Accounts2.init.holdings) :=
  claim4_amended.2 Accounts2.init (by simp [Accounts2.init, Accounts2.mkAccount])

theorem gsp_AAPL : get_share_price "AAPL" = some 150 := rfl

/-- C6 helper: implementation 1 rejects any quantity that is not a
positive `int` (non-`int`, zero or negative) on buy. -/
theorem Accounts1.buy_shares_invalid (a : Accounts1.Account) (s : String) (q : PyNum)
    (h : ¬(q.isInt = true ∧ 0 < q.toQ)) :
    Accounts1.buy_shares a s q = PyResult.exn Err.invalidQuantity a := by
  have hcond : q.isInt = false ∨ q.toQ ≤ 0 := by
    rcases not_and_or.mp h with h1 | h1
    · exact Or.inl (by simpa using h1)
    · exact Or.inr (not_lt.mp h1)
  unfold Accounts1.buy_shares
  rw [if_pos hcond]

/-- C6 helper: implementation 1 rejects any quantity that is not a
positive `int` on sell. -/
theorem Accounts1.sell_shares_invalid (a : Accounts1.Account) (s : String) (q : PyNum)
    (h : ¬(q.isInt = true ∧ 0 < q.toQ)) :
    Accounts1.sell_shares a s q = PyResult.exn Err.invalidQuantity a := by
  have hcond : q.isInt = false ∨ q.toQ ≤ 0 := by
    rcases not_and_or.mp h with h1 | h1
    · exact Or.inl (by simpa using h1)
    · exact Or.inr (not_lt.mp h1)
  unfold Accounts1.sell_shares
  rw [if_pos hcond]

/-- C6 is false as stated for implementation 2: `buy("AAPL", 2.5)` with a
non-integer (float) quantity succeeds and mutates the account instead of
raising InvalidQuantity. -/
theorem claim6_counterexample :
    Accounts2.buy c6pre "AAPL" (PyNum.float (5/2)) = PyResult.ok c6post ∧ c6post ≠ c6pre := by
  constructor
  · unfold Accounts2.buy
    simp only [PyNum.toQ]
    rw [if_neg (by norm_num [c6pre])]
    simp only [gsp_AAPL]
    rw [if_neg (by norm_num [c6pre])]
    rw [PyResult.ok.injEq]
    norm_num [Accounts2.add_transaction, c6pre, c6post, setKey, getValD, getVal?,
      Accounts2.Account.mk.injEq, Accounts2.Tx.mk.injEq]
  · intro h
    have hbal : c6post.balance = c6pre.balance := by rw [h]
    norm_num [c6pre, c6post] at hbal

/-- C6 amended: implementation 1 raises InvalidQuantity on buy and sell
for every quantity that is not a positive int (zero, negative, or any
float such as 2.5), and can only mutate state when the quantity is a
positive int; implementation 2 raises InvalidQuantity only when the
quantity's value is non-positive, and accepts a positive non-integer
quantity (see the counterexample). -/
theorem claim6_amended :
    (∀ (a : Accounts1.Account) (s : String) (q : PyNum), ¬(q.isInt = true ∧ 0 < q.toQ) →
      Accounts1.buy_shares a s q = PyResult.exn Err.invalidQuantity a ∧
      Accounts1.sell_shares a s q = PyResult.exn Err.invalidQuantity a) ∧
    (∀ (a a' : Accounts1.Account) (s : String) (q : PyNum),
      (Accounts1.buy_shares a s q = PyResult.ok a' ∨
       Accounts1.sell_shares a s q = PyResult.ok a') →
      q.isInt = true ∧ 0 < q.toQ) ∧
    (∀ (b : Accounts2.Account) (s : String) (q : PyNum), q.toQ ≤ 0 →
      Accounts2.buy b s q = PyResult.exn Err.invalidQuantity b ∧
      Accounts2.sell b s q = PyResult.exn Err.invalidQuantity b) := by
  refine ⟨?_, ?_, ?_⟩
  · intro a s q h
    exact ⟨Accounts1.buy_shares_invalid a s q h, Accounts1.sell_shares_invalid a s q h⟩
  · intro a a' s q hok
    by_contra h
    rcases hok with hok | hok
    · rw [Accounts1.buy_shares_invalid a s q h] at hok
      exact PyResult.noConfusion hok
    · rw [Accounts1.sell_shares_invalid a s q h] at hok
      exact PyResult.noConfusion hok
  · intro b s q hq
    constructor
    · unfold Accounts2.buy
      rw [if_pos hq]
    · unfold Accounts2.sell
      rw [if_pos hq]

/-- C6 amended witness: implementation 1 rejects the fractional quantity
2.5 on a fresh account. -/
theorem claim6_amended_witness :
    Accounts1.buy_shares Accounts1.init "AAPL" (PyNum.float (5/2)) =
      PyResult.exn Err.invalidQuantity Accounts1.init :=
  (claim6_amended.1 Accounts1.init "AAPL" (PyNum.float (5/2))
    (by simp [PyNum.isInt])).1

theorem pyRound2_zero : pyRound2 0 = 0 :=
  pyRound2_eq_self 0 (by norm_num)

theorem pyRound2_neg_pyRound2 (x : ℚ) : pyRound2 (-(pyRound2 x)) = -(pyRound2 x) :=
  pyRound2_eq_self (-(rhe (x * 100))) (by unfold pyRound2; push_cast; ring)

theorem totalDeposits_append (ts : List Accounts1.TxRec) (t : Accounts1.TxRec) :
    Accounts1.totalDeposits (ts ++ [t]) =
      Accounts1.totalDeposits ts + (if t.type = "deposit" then t.amount else 0) := by
  unfold Accounts1.totalDeposits
  rw [List.filter_append]
  by_cases htype : t.type = "deposit"
  · rw [if_pos htype]
    have hft : List.filter (fun t => decide (t.type = "deposit")) [t] = [t] := by
      simp [htype]
    rw [hft, List.foldl_append]
    simp only [List.foldl_cons, List.foldl_nil]
  · rw [if_neg htype]
    have hft : List.filter (fun t => decide (t.type = "deposit")) [t] = [] := by
      simp [htype]
    rw [hft, List.append_nil, add_zero]

/-- C7 helper: on implementation 1, a deposit of `x` followed by a
withdrawal of `x` on a fresh account leaves `get_profit_or_loss` at
`-round(x, 2)`, not `0`: the withdrawal lowers the portfolio value but
not the deposit basis. -/
theorem dep_wd_pl1 (x : ℚ) (hx : 0 < x) :
    Accounts1.get_profit_or_loss (Accounts1.run Accounts1.init [Op.deposit x, Op.withdraw x]) =
      -(pyRound2 x) := by
  have hd : Accounts1.deposit Accounts1.init x = PyResult.ok
      { account_id := "acct", cash_balance := x, holdings := [],
        transactions := [{ type := "deposit", amount := pyRound2 x, symbol := none,
                           quantity := none, price_per_share := none }] } := by
    unfold Accounts1.deposit Accounts1.init Accounts1.mkAccount Accounts1.record_transaction
    rw [if_neg (not_le.mpr hx)]
    simp
  have hw : Accounts1.withdraw
      { account_id := "acct", cash_balance := x, holdings := [],
        transactions := [{ type := "deposit", amount := pyRound2 x, symbol := none,
                           quantity := none, price_per_share := none }] } x = PyResult.ok
      { account_id := "acct", cash_balance := 0, holdings := [],
        transactions := [{ type := "deposit", amount := pyRound2 x, symbol := none,
                           quantity := none, price_per_share := none },
                         { type := "withdrawal", amount := pyRound2 x, symbol := none,
                           quantity := none, price_per_share := none }] } := by
    unfold Accounts1.withdraw Accounts1.record_transaction
    rw [if_neg (not_le.mpr hx), if_neg (by simp)]
    simp
  have hrun : Accounts1.run Accounts1.init [Op.deposit x, Op.withdraw x] =
      { account_id := "acct", cash_balance := 0, holdings := [],
        transactions := [{ type := "deposit", amount := pyRound2 x, symbol := none,
                           quantity := none, price_per_share := none },
                         { type := "withdrawal", amount := pyRound2 x, symbol := none,
                           quantity := none, price_per_share := none }] } := by
    unfold Accounts1.run
    simp only [List.foldl_cons, List.foldl_nil, Accounts1.step]
    rw [hd]
    simp only [PyResult.state]
    rw [hw]
  rw [hrun]
  unfold Accounts1.get_profit_or_loss Accounts1.get_portfolio_value
  have htd : Accounts1.totalDeposits
      [{ type := "deposit", amount := pyRound2 x, symbol := none,
         quantity := none, price_per_share := none },
       { type := "withdrawal", amount := pyRound2 x, symbol := none,
         quantity := none, price_per_share := none }] = 0 + pyRound2 x := rfl
  rw [htd]
  have hloop : Accounts1.holdingsValueLoop [] 0 = 0 := rfl
  rw [hloop]
  norm_num [pyRound2_zero, pyRound2_neg_pyRound2]

/-- C7 helper: same scenario on implementation 2 yields `-x`. -/
theorem dep_wd_pl2 (x : ℚ) (hx : 0 < x) :
    Accounts2.get_profit_loss (Accounts2.run Accounts2.init [Op.deposit x, Op.withdraw x]) =
      Except.ok (-x) := by
  have hd : Accounts2.deposit Accounts2.init x = PyResult.ok
      { account_id := "acct", balance := x, holdings := [],
        transactions := [{ transaction_id := 1, type := "DEPOSIT", amount := x, symbol := none,
                           quantity := none, price_per_share := none }],
        initial_deposit := x, next_transaction_id := 2 } := by
    unfold Accounts2.deposit Accounts2.init Accounts2.mkAccount Accounts2.add_transaction
    rw [if_neg (not_le.mpr hx)]
    simp
  have hw : Accounts2.withdraw
      { account_id := "acct", balance := x, holdings := [],
        transactions := [{ transaction_id := 1, type := "DEPOSIT", amount := x, symbol := none,
                           quantity := none, price_per_share := none }],
        initial_deposit := x, next_transaction_id := 2 } x = PyResult.ok
      { account_id := "acct", balance := 0, holdings := [],
        transactions := [{ transaction_id := 1, type := "DEPOSIT", amount := x, symbol := none,
                           quantity := none, price_per_share := none },
                         { transaction_id := 2, type := "WITHDRAWAL", amount := x, symbol := none,
                           quantity := none, price_per_share := none }],
        initial_deposit := x, next_transaction_id := 3 } := by
    unfold Accounts2.withdraw Accounts2.add_transaction
    rw [if_neg (not_le.mpr hx), if_neg (by simp)]
    simp
  have hrun : Accounts2.run Accounts2.init [Op.deposit x, Op.withdraw x] =
      { account_id := "acct", balance := 0, holdings := [],
        transactions := [{ transaction_id := 1, type := "DEPOSIT", amount := x, symbol := none,
                           quantity := none, price_per_share := none },
                         { transaction_id := 2, type := "WITHDRAWAL", amount := x, symbol := none,
                           quantity := none, price_per_share := none }],
        initial_deposit := x, next_transaction_id := 3 } := by
    unfold Accounts2.run
    simp only [List.foldl_cons, List.foldl_nil, Accounts2.step]
    rw [hd]
    simp only [PyResult.state]
    rw [hw]
  rw [hrun]
  unfold Accounts2.get_profit_loss Accounts2.get_portfolio_value
  simp only [Accounts2.portfolioLoop]
  rw [Except.ok.injEq]
  ring

theorem totalDeposits_append_dep (ts : List Accounts1.TxRec) (t : Accounts1.TxRec)
    (h : t.type = "deposit") :
    Accounts1.totalDeposits (ts ++ [t]) = Accounts1.totalDeposits ts + t.amount := by
  rw [totalDeposits_append, if_pos h]

theorem totalDeposits_append_other (ts : List Accounts1.TxRec) (t : Accounts1.TxRec)
    (h : ¬t.type = "deposit") :
    Accounts1.totalDeposits (ts ++ [t]) = Accounts1.totalDeposits ts := by
  rw [totalDeposits_append, if_neg h, add_zero]

/-- C7 helper: a successful implementation-1 withdrawal appends only a
"withdrawal" record, so the deposit total of the history is unchanged. -/
theorem Accounts1.withdraw_totalDeposits {a a' : Accounts1.Account} {x : ℚ}
    (h : Accounts1.withdraw a x = PyResult.ok a') :
    Accounts1.totalDeposits a'.transactions = Accounts1.totalDeposits a.transactions := by
  unfold Accounts1.withdraw at h
  split at h
  · exact PyResult.noConfusion h
  · split at h
    · exact PyResult.noConfusion h
    · rw [PyResult.ok.injEq] at h
      subst h
      unfold Accounts1.record_transaction
      simp only
      rw [totalDeposits_append_other]
      intro hc
      have hc' : ("withdrawal" : String) = "deposit" := hc
      exact absurd hc' (by decide)

/-- C7 helper: a successful implementation-1 deposit adds its (rounded)
amount to the deposit total of the history. -/
theorem Accounts1.deposit_totalDeposits {a a' : Accounts1.Account} {x : ℚ}
    (h : Accounts1.deposit a x = PyResult.ok a') :
    Accounts1.totalDeposits a'.transactions =
      Accounts1.totalDeposits a.transactions + pyRound2 x := by
  unfold Accounts1.deposit at h
  split at h
  · exact PyResult.noConfusion h
  · rw [PyResult.ok.injEq] at h
    subst h
    unfold Accounts1.record_transaction
    simp only
    rw [totalDeposits_append_dep]
    rfl

/-- C7 helper: implementation 2's cumulative-deposit field is unchanged
by a successful withdrawal. -/
theorem Accounts2.withdraw_initial_deposit {b b' : Accounts2.Account} {x : ℚ}
    (h : Accounts2.withdraw b x = PyResult.ok b') :
    b'.initial_deposit = b.initial_deposit := by
  unfold Accounts2.withdraw at h
  split at h
  · exact PyResult.noConfusion h
  · split at h
    · exact PyResult.noConfusion h
    · rw [PyResult.ok.injEq] at h
      subst h
      simp [Accounts2.add_transaction]

/-- C7 helper: implementation 2's cumulative-deposit field grows by
exactly the amount of a successful deposit. -/
theorem Accounts2.deposit_initial_deposit {b b' : Accounts2.Account} {x : ℚ}
    (h : Accounts2.deposit b x = PyResult.ok b') :
    b'.initial_deposit = b.initial_deposit + x := by
  unfold Accounts2.deposit at h
  split at h
  · exact PyResult.noConfusion h
  · rw [PyResult.ok.injEq] at h
    subst h
    simp [Accounts2.add_transaction]

/-- C7 is false in its matched deposit/withdraw clause: on both
implementations, `deposit(100)` then `withdraw(100)` on a fresh account
leaves profit-or-loss at −100, not 0 (the withdrawal lowers the
portfolio value but not the cumulative-deposit basis). -/
theorem claim7_counterexample :
    Accounts1.get_profit_or_loss (Accounts1.run Accounts1.init [Op.deposit 100, Op.withdraw 100]) =
      -100 ∧
    Accounts2.get_profit_loss (Accounts2.run Accounts2.init [Op.deposit 100, Op.withdraw 100]) =
      Except.ok (-100) := by
  constructor
  · rw [dep_wd_pl1 100 (by norm_num),
      show pyRound2 100 = 100 from pyRound2_eq_self 10000 (by norm_num)]
  · exact dep_wd_pl2 100 (by norm_num)

/-- C7 amended: profit-or-loss is the portfolio value minus the
cumulative deposits; deposits increase the basis and withdrawals never
decrease it; a fresh account reports 0; and `deposit(a)` followed by
`withdraw(a)` with no trades leaves profit-or-loss at `-a` (rounded to 2
places in implementation 1), not 0. -/
theorem claim7_amended :
    Accounts1.get_profit_or_loss Accounts1.init = 0 ∧
    Accounts2.get_profit_loss Accounts2.init = Except.ok 0 ∧
    (∀ a : Accounts1.Account, Accounts1.get_profit_or_loss a =
      pyRound2 (Accounts1.get_portfolio_value a - Accounts1.totalDeposits a.transactions)) ∧
    (∀ b : Accounts2.Account, (∀ p ∈ b.holdings, get_share_price p.1 ≠ none) →
      Accounts2.get_profit_loss b =
        Except.ok ((b.balance + pricedSum b.holdings) - b.initial_deposit)) ∧
    (∀ (a a' : Accounts1.Account) (x : ℚ), Accounts1.withdraw a x = PyResult.ok a' →
      Accounts1.totalDeposits a'.transactions = Accounts1.totalDeposits a.transactions) ∧
    (∀ (a a' : Accounts1.Account) (x : ℚ), Accounts1.deposit a x = PyResult.ok a' →
      Accounts1.totalDeposits a'.transactions =
        Accounts1.totalDeposits a.transactions + pyRound2 x) ∧
    (∀ (b b' : Accounts2.Account) (x : ℚ), Accounts2.withdraw b x = PyResult.ok b' →
      b'.initial_deposit = b.initial_deposit) ∧
    (∀ (b b' : Accounts2.Account) (x : ℚ), Accounts2.deposit b x = PyResult.ok b' →
      b'.initial_deposit = b.initial_deposit + x) ∧
    (∀ x : ℚ, 0 < x →
      Accounts1.get_profit_or_loss (Accounts1.run Accounts1.init [Op.deposit x, Op.withdraw x]) =
        -(pyRound2 x) ∧
      Accounts2.get_profit_loss (Accounts2.run Accounts2.init [Op.deposit x, Op.withdraw x]) =
        Except.ok (-x)) := by
  refine ⟨?_, ?_, ?_, ?_, ?_, ?_, ?_, ?_, ?_⟩
  · unfold Accounts1.get_profit_or_loss Accounts1.get_portfolio_value Accounts1.init
      Accounts1.mkAccount
    rw [show Accounts1.holdingsValueLoop [] 0 = 0 from rfl,
      show Accounts1.totalDeposits ([] : List Accounts1.TxRec) = 0 from rfl]
    norm_num [pyRound2_zero]
  · unfold Accounts2.get_profit_loss Accounts2.get_portfolio_value Accounts2.init
      Accounts2.mkAccount
    norm_num [Accounts2.portfolioLoop]
  · intro a
    rfl
  · intro b hall
    unfold Accounts2.get_profit_loss Accounts2.get_portfolio_value
    rw [portfolioLoop_eq _ _ hall]
  · intro a a' x h
    exact Accounts1.withdraw_totalDeposits h
  · intro a a' x h
    exact Accounts1.deposit_totalDeposits h
  · intro b b' x h
    exact Accounts2.withdraw_initial_deposit h
  · intro b b' x h
    exact Accounts2.deposit_initial_deposit h
  · intro x hx
    exact ⟨dep_wd_pl1 x hx, dep_wd_pl2 x hx⟩

/-- C7 amended witness: the matched deposit/withdraw clause evaluated at
the concrete amount 100 on implementation 1. -/
theorem claim7_amended_witness :
    (0 : ℚ) < 100 ∧
    Accounts1.get_profit_or_loss (Accounts1.run Accounts1.init [Op.deposit 100, Op.withdraw 100]) =
      -(pyRound2 100) :=
  ⟨by norm_num, (claim7_amended.2.2.2.2.2.2.2.2 100 (by norm_num)).1⟩

theorem Accounts1.buy_shares_ok (a : Accounts1.Account) (s1 : String) (q : ℤ) (p : ℚ)
    (hq : 0 < q) (hp : get_share_price s1 = some p)
    (hcost : p * (q : ℚ) ≤ a.cash_balance) :
    Accounts1.buy_shares a s1 (PyNum.int q) = PyResult.ok (buyOutcome1 a s1 q p) := by
  have hq' : (0 : ℚ) < (q : ℚ) := by exact_mod_cast hq
  have hps : get_share_price (pyUpper s1) = some p := (get_share_price_upper s1).trans hp
  unfold Accounts1.buy_shares
  simp only [PyNum.toQ, PyNum.isInt]
  rw [if_neg (by push_neg; exact ⟨by simp, hq'⟩)]
  simp only [hps]
  rw [if_neg (not_lt.mpr hcost)]
  rfl

theorem Accounts1.sell_after_buy1 (a : Accounts1.Account) (s1 s2 : String) (q : ℤ) (p : ℚ)
    (hwf : ∀ e ∈ a.holdings, 0 < e.2)
    (hq : 0 < q)
    (hsym : pyUpper s1 = pyUpper s2)
    (hp : get_share_price s1 = some p) :
    Accounts1.sell_shares (buyOutcome1 a s1 q p) s2 (PyNum.int q) =
      PyResult.ok (sellOutcome1 (buyOutcome1 a s1 q p) s1 q p) ∧
    (sellOutcome1 (buyOutcome1 a s1 q p) s1 q p).holdings = a.holdings := by
  have hq' : (0 : ℚ) < (q : ℚ) := by exact_mod_cast hq
  have hps : get_share_price (pyUpper s1) = some p := (get_share_price_upper s1).trans hp
  have hBh : (buyOutcome1 a s1 q p).holdings =
      setKey a.holdings (pyUpper s1) (getValD a.holdings (pyUpper s1) 0 + (q : ℚ)) := rfl
  have hgvB : getVal? (buyOutcome1 a s1 q p).holdings (pyUpper s1) =
      some (getValD a.holdings (pyUpper s1) 0 + (q : ℚ)) := by
    rw [hBh]
    exact getVal?_setKey_self _ _ _
  have hvB : getValD (buyOutcome1 a s1 q p).holdings (pyUpper s1) 0 =
      getValD a.holdings (pyUpper s1) 0 + (q : ℚ) := by
    unfold getValD
    rw [hgvB]
    rfl
  have hd0 : 0 ≤ getValD a.holdings (pyUpper s1) 0 := getValD_pos_of_wf hwf _
  constructor
  · unfold Accounts1.sell_shares
    simp only [PyNum.toQ, PyNum.isInt]
    rw [← hsym]
    rw [if_neg (by push_neg; exact ⟨by simp, hq'⟩)]
    rw [if_neg (by
      push_neg
      refine ⟨by rw [hgvB]; simp, ?_⟩
      rw [hvB]
      linarith)]
    simp only [hps]
    rfl
  · show (if getValD (buyOutcome1 a s1 q p).holdings (pyUpper s1) 0 - (q : ℚ) = 0 then
        delKey (setKey (buyOutcome1 a s1 q p).holdings (pyUpper s1)
          (getValD (buyOutcome1 a s1 q p).holdings (pyUpper s1) 0 - (q : ℚ))) (pyUpper s1)
      else
        setKey (buyOutcome1 a s1 q p).holdings (pyUpper s1)
          (getValD (buyOutcome1 a s1 q p).holdings (pyUpper s1) 0 - (q : ℚ))) = a.holdings
    rw [hvB, hBh]
    simp only [setKey_setKey]
    have harith : getValD a.holdings (pyUpper s1) 0 + (q : ℚ) - (q : ℚ) =
        getValD a.holdings (pyUpper s1) 0 := by ring
    rw [harith]
    cases hgv : getVal? a.holdings (pyUpper s1) with
    | none =>
      have hd0' : getValD a.holdings (pyUpper s1) 0 = 0 := by simp [getValD, hgv]
      rw [hd0', if_pos rfl]
      exact delKey_setKey_none 0 hgv
    | some w =>
      have hw : getValD a.holdings (pyUpper s1) 0 = w := by simp [getValD, hgv]
      have hw0 : 0 < w := hwf _ (getVal?_mem hgv)
      rw [hw, if_neg (ne_of_gt hw0)]
      exact setKey_getVal?_self hgv

theorem Accounts2.buy_ok (a : Accounts2.Account) (s : String) (nm : PyNum) (p : ℚ)
    (hq : 0 < nm.toQ) (hp : get_share_price s = some p)
    (hcost : p * nm.toQ ≤ a.balance) :
    Accounts2.buy a s nm = PyResult.ok (buyOutcome2 a s nm.toQ p) := by
  unfold Accounts2.buy
  rw [if_neg (not_le.mpr hq)]
  simp only [hp]
  rw [if_neg (not_lt.mpr hcost)]
  rfl

theorem Accounts2.sell_after_buy2 (a : Accounts2.Account) (s : String) (nm : PyNum) (p : ℚ)
    (hwf : ∀ e ∈ a.holdings, 0 < e.2)
    (hq : 0 < nm.toQ)
    (hp : get_share_price s = some p) :
    Accounts2.sell (buyOutcome2 a s nm.toQ p) s nm =
      PyResult.ok (sellOutcome2 (buyOutcome2 a s nm.toQ p) s nm.toQ p) ∧
    (sellOutcome2 (buyOutcome2 a s nm.toQ p) s nm.toQ p).holdings = a.holdings := by
  have hBh : (buyOutcome2 a s nm.toQ p).holdings =
      setKey a.holdings s (getValD a.holdings s 0 + nm.toQ) := rfl
  have hgvB : getVal? (buyOutcome2 a s nm.toQ p).holdings s =
      some (getValD a.holdings s 0 + nm.toQ) := by
    rw [hBh]
    exact getVal?_setKey_self _ _ _
  have hvB : getValD (buyOutcome2 a s nm.toQ p).holdings s 0 =
      getValD a.holdings s 0 + nm.toQ := by
    unfold getValD
    rw [hgvB]
    rfl
  have hd0 : 0 ≤ getValD a.holdings s 0 := getValD_pos_of_wf hwf _
  constructor
  · unfold Accounts2.sell
    rw [if_neg (not_le.mpr hq)]
    rw [if_neg (by rw [hvB]; linarith)]
    simp only [hp]
    rfl
  · show (if getValD (buyOutcome2 a s nm.toQ p).holdings s 0 - nm.toQ = 0 then
        delKey (buyOutcome2 a s nm.toQ p).holdings s
      else
        setKey (buyOutcome2 a s nm.toQ p).holdings s
          (getValD (buyOutcome2 a s nm.toQ p).holdings s 0 - nm.toQ)) = a.holdings
    rw [hvB, hBh]
    simp only [setKey_setKey]
    have harith : getValD a.holdings s 0 + nm.toQ - nm.toQ = getValD a.holdings s 0 := by ring
    rw [harith]
    cases hgv : getVal? a.holdings s with
    | none =>
      have hd0' : getValD a.holdings s 0 = 0 := by simp [getValD, hgv]
      rw [hd0', if_pos rfl]
      exact delKey_setKey_none (0 + nm.toQ) hgv
    | some w =>
      have hw : getValD a.holdings s 0 = w := by simp [getValD, hgv]
      have hw0 : 0 < w := hwf _ (getVal?_mem hgv)
      rw [hw, if_neg (ne_of_gt hw0)]
      exact setKey_getVal?_self hgv

/-- C8: in both implementations, buying `q` shares of a priced symbol
with sufficient balance and immediately selling the same `q` shares of
the same symbol (price table unchanged) restores the cash balance and
the holdings mapping exactly, and appends exactly two transaction
records, a buy followed by a sell.  (The holdings well-formedness
hypothesis — all stored quantities positive — is the data-model
invariant maintained by the implementations.) -/
theorem claim8_buy_sell_roundtrip :
    (∀ (a : Accounts1.Account) (s : String) (q : ℤ) (p : ℚ),
      (∀ e ∈ a.holdings, 0 < e.2) → 0 < q → get_share_price s = some p →
      p * (q : ℚ) ≤ a.cash_balance →
      ∃ b c : Accounts1.Account,
        Accounts1.buy_shares a s (PyNum.int q) = PyResult.ok b ∧
        Accounts1.sell_shares b s (PyNum.int q) = PyResult.ok c ∧
        c.cash_balance = a.cash_balance ∧ c.holdings = a.holdings ∧
        ∃ r1 r2 : Accounts1.TxRec, c.transactions = a.transactions ++ [r1, r2] ∧
          r1.type = "buy" ∧ r2.type = "sell") ∧
    (∀ (a : Accounts2.Account) (s : String) (q : ℤ) (p : ℚ),
      (∀ e ∈ a.holdings, 0 < e.2) → 0 < q → get_share_price s = some p →
      p * (q : ℚ) ≤ a.balance →
      ∃ b c : Accounts2.Account,
        Accounts2.buy a s (PyNum.int q) = PyResult.ok b ∧
        Accounts2.sell b s (PyNum.int q) = PyResult.ok c ∧
        c.balance = a.balance ∧ c.holdings = a.holdings ∧
        ∃ r1 r2 : Accounts2.Tx, c.transactions = a.transactions ++ [r1, r2] ∧
          r1.type = "BUY" ∧ r2.type = "SELL") := by
  constructor
  · intro a s q p hwf hq hp hcost
    refine ⟨buyOutcome1 a s q p, sellOutcome1 (buyOutcome1 a s q p) s q p,
      Accounts1.buy_shares_ok a s q p hq hp hcost,
      (Accounts1.sell_after_buy1 a s s q p hwf hq rfl hp).1, ?_,
      (Accounts1.sell_after_buy1 a s s q p hwf hq rfl hp).2, ?_⟩
    · show a.cash_balance - p * (q : ℚ) + p * (q : ℚ) = a.cash_balance
      ring
    · refine ⟨⟨"buy", pyRound2 (p * (q : ℚ)),
          (if pyUpper s = "" then none else some (pyUpper (pyUpper s))),
          some (q : ℚ), Option.map pyRound2 (some p)⟩,
        ⟨"sell", pyRound2 (p * (q : ℚ)),
          (if pyUpper s = "" then none else some (pyUpper (pyUpper s))),
          some (q : ℚ), Option.map pyRound2 (some p)⟩, ?_, rfl, rfl⟩
      show (a.transactions ++ _) ++ _ = _
      rw [List.append_assoc]
      rfl
  · intro a s q p hwf hq hp hcost
    have hq' : (0 : ℚ) < (PyNum.int q).toQ := by
      simp only [PyNum.toQ]
      exact_mod_cast hq
    have hcost' : p * (PyNum.int q).toQ ≤ a.balance := by
      simpa only [PyNum.toQ] using hcost
    refine ⟨buyOutcome2 a s (PyNum.int q).toQ p,
      sellOutcome2 (buyOutcome2 a s (PyNum.int q).toQ p) s (PyNum.int q).toQ p,
      Accounts2.buy_ok a s (PyNum.int q) p hq' hp hcost',
      (Accounts2.sell_after_buy2 a s (PyNum.int q) p hwf hq' hp).1, ?_,
      (Accounts2.sell_after_buy2 a s (PyNum.int q) p hwf hq' hp).2, ?_⟩
    · show a.balance - p * (PyNum.int q).toQ + p * (PyNum.int q).toQ = a.balance
      ring
    · refine ⟨⟨a.next_transaction_id, "BUY", p * (PyNum.int q).toQ,
          some s, some (PyNum.int q).toQ, some p⟩,
        ⟨a.next_transaction_id + 1, "SELL", p * (PyNum.int q).toQ,
          some s, some (PyNum.int q).toQ, some p⟩, ?_, rfl, rfl⟩
      show (a.transactions ++ _) ++ _ = _
      rw [List.append_assoc]
      rfl

/-- C8 witness: the concrete roundtrip on `c8acct1`, all hypotheses
discharged at the input. -/
theorem claim8_witness :
    (∀ e ∈ c8acct1.holdings, 0 < e.2) ∧ (0 : ℤ) < 10 ∧
    get_share_price "AAPL" = some 150 ∧ (150 : ℚ) * ((10 : ℤ) : ℚ) ≤ c8acct1.cash_balance ∧
    (∃ b c : Accounts1.Account,
      Accounts1.buy_shares c8acct1 "AAPL" (PyNum.int 10) = PyResult.ok b ∧
      Accounts1.sell_shares b "AAPL" (PyNum.int 10) = PyResult.ok c ∧
      c.cash_balance = c8acct1.cash_balance ∧ c.holdings = c8acct1.holdings ∧
      ∃ r1 r2 : Accounts1.TxRec, c.transactions = c8acct1.transactions ++ [r1, r2] ∧
        r1.type = "buy" ∧ r2.type = "sell") :=
  ⟨by simp [c8acct1], by norm_num, rfl, by push_cast; norm_num [c8acct1],
    claim8_buy_sell_roundtrip.1 c8acct1 "AAPL" 10 150 (by simp [c8acct1]) (by norm_num) rfl
      (by push_cast; norm_num [c8acct1])⟩

theorem mem_setKey {h : List (String × ℚ)} {k : String} {v : ℚ} {e : String × ℚ}
    (he : e ∈ setKey h k v) : e ∈ h ∨ e.1 = k := by
  induction h with
  | nil =>
    simp [setKey] at he
    subst he
    exact Or.inr rfl
  | cons p t ih =>
    obtain ⟨k', v'⟩ := p
    unfold setKey at he
    split at he <;> rename_i hk
    · rcases List.mem_cons.mp he with h1 | h1
      · subst h1
        exact Or.inr rfl
      · exact Or.inl (List.mem_cons_of_mem _ h1)
    · rcases List.mem_cons.mp he with h1 | h1
      · subst h1
        exact Or.inl (List.mem_cons_self _ _)
      · rcases ih h1 with h2 | h2
        · exact Or.inl (List.mem_cons_of_mem _ h2)
        · exact Or.inr h2

theorem mem_delKey {h : List (String × ℚ)} {k : String} {e : String × ℚ}
    (he : e ∈ delKey h k) : e ∈ h := by
  induction h with
  | nil => simp [delKey] at he
  | cons p t ih =>
    obtain ⟨k', v'⟩ := p
    unfold delKey at he
    split at he
    · exact List.mem_cons_of_mem _ he
    · rcases List.mem_cons.mp he with h1 | h1
      · subst h1
        exact List.mem_cons_self _ _
      · exact List.mem_cons_of_mem _ (ih h1)

/-- C3 helper: one implementation-1 operation keeps every holdings key a
fixed point of uppercasing (buy and sell only ever insert
`symbol.upper()` as a key). -/
theorem Accounts1.step_upper (a : Accounts1.Account) (op : Op)
    (h : ∀ e ∈ a.holdings, pyUpper e.1 = e.1) :
    ∀ e ∈ ((Accounts1.step a op).state).holdings, pyUpper e.1 = e.1 := by
  cases op with
  | deposit x =>
    simp only [Accounts1.step]
    unfold Accounts1.deposit
    split
    · simpa [PyResult.state] using h
    · simpa [PyResult.state, Accounts1.record_transaction] using h
  | withdraw x =>
    simp only [Accounts1.step]
    unfold Accounts1.withdraw
    split
    · simpa [PyResult.state] using h
    · split
      · simpa [PyResult.state] using h
      · simpa [PyResult.state, Accounts1.record_transaction] using h
  | buy s q =>
    simp only [Accounts1.step]
    unfold Accounts1.buy_shares
    split
    · simpa [PyResult.state] using h
    · split
      · simpa [PyResult.state] using h
      · split
        · simpa [PyResult.state] using h
        · simp only [PyResult.state, Accounts1.record_transaction]
          intro e he
          rcases mem_setKey he with h1 | h1
          · exact h e h1
          · rw [h1, pyUpper_idem]
  | sell s q =>
    simp only [Accounts1.step]
    unfold Accounts1.sell_shares
    split
    · simpa [PyResult.state] using h
    · split
      · simpa [PyResult.state] using h
      · split
        · simpa [PyResult.state] using h
        · simp only [PyResult.state, Accounts1.record_transaction]
          intro e he
          split at he
          · rcases mem_setKey (mem_delKey he) with h1 | h1
            · exact h e h1
            · rw [h1, pyUpper_idem]
          · rcases mem_setKey he with h1 | h1
            · exact h e h1
            · rw [h1, pyUpper_idem]

/-- C3 counterexample: on implementation 2, depositing 150 and buying one
"aapl" (lowercase) stores the raw lowercase key in holdings, and a
subsequent sell of "AAPL" (uppercase) misses that entry and raises
InsufficientShares, so the mixed-case buy/sell do not operate on the
same holdings entry and the holdings key is not uppercase. -/
theorem claim3_counterexample :
    (Accounts2.run Accounts2.init [Op.deposit 150, Op.buy "aapl" (PyNum.int 1)]).holdings =
      [("aapl", 1)] ∧
    Accounts2.sell (Accounts2.run Accounts2.init [Op.deposit 150, Op.buy "aapl" (PyNum.int 1)])
        "AAPL" (PyNum.int 1) =
      PyResult.exn Err.insufficientShares
        (Accounts2.run Accounts2.init [Op.deposit 150, Op.buy "aapl" (PyNum.int 1)]) := by
  have hd : Accounts2.deposit Accounts2.init 150 = PyResult.ok
      { account_id := "acct", balance := 150, holdings := [],
        transactions := [{ transaction_id := 1, type := "DEPOSIT", amount := 150, symbol := none,
                           quantity := none, price_per_share := none }],
        initial_deposit := 150, next_transaction_id := 2 } := by
    unfold Accounts2.deposit Accounts2.init Accounts2.mkAccount Accounts2.add_transaction
    rw [if_neg (by norm_num)]
    simp
  have hb : Accounts2.buy
      { account_id := "acct", balance := 150, holdings := [],
        transactions := [{ transaction_id := 1, type := "DEPOSIT", amount := 150, symbol := none,
                           quantity := none, price_per_share := none }],
        initial_deposit := 150, next_transaction_id := 2 } "aapl" (PyNum.int 1) = PyResult.ok
      { account_id := "acct", balance := 0, holdings := [("aapl", 1)],
        transactions := [{ transaction_id := 1, type := "DEPOSIT", amount := 150, symbol := none,
                           quantity := none, price_per_share := none },
                         { transaction_id := 2, type := "BUY", amount := 150,
                           symbol := some "aapl", quantity := some 1,
                           price_per_share := some 150 }],
        initial_deposit := 150, next_transaction_id := 3 } := by
    unfold Accounts2.buy
    simp only [PyNum.toQ]
    rw [if_neg (by push_cast; norm_num)]
    simp only [show get_share_price "aapl" = some 150 from rfl]
    rw [if_neg (by push_cast; norm_num)]
    rw [PyResult.ok.injEq]
    norm_num [Accounts2.add_transaction, setKey, getValD, getVal?,
      Accounts2.Account.mk.injEq, Accounts2.Tx.mk.injEq]
  have hrun : Accounts2.run Accounts2.init [Op.deposit 150, Op.buy "aapl" (PyNum.int 1)] =
      { account_id := "acct", balance := 0, holdings := [("aapl", 1)],
        transactions := [{ transaction_id := 1, type := "DEPOSIT", amount := 150, symbol := none,
                           quantity := none, price_per_share := none },
                         { transaction_id := 2, type := "BUY", amount := 150,
                           symbol := some "aapl", quantity := some 1,
                           price_per_share := some 150 }],
        initial_deposit := 150, next_transaction_id := 3 } := by
    unfold Accounts2.run
    simp only [List.foldl_cons, List.foldl_nil, Accounts2.step]
    rw [hd]
    simp only [PyResult.state]
    rw [hb]
  rw [hrun]
  refine ⟨rfl, ?_⟩
  unfold Accounts2.sell
  simp only [PyNum.toQ]
  rw [if_neg (by push_cast; norm_num)]
  rw [if_pos ?_]
  show getValD [("aapl", 1)] "AAPL" 0 < ((1 : ℤ) : ℚ)
  rw [show getValD [("aapl", 1)] "AAPL" 0 = 0 from rfl]
  push_cast
  norm_num

/-- C3 amended: implementation 1 normalizes symbols to uppercase before
both lookup and storage — every holdings key in every reachable state is
a fixed point of uppercasing, and buying under one letter case then
selling under any other letter case operates on the same entry and
round-trips balance and holdings.  Implementation 2 uppercases only
inside the price lookup and stores the raw symbol (see the
counterexample). -/
theorem claim3_amended :
    (∀ ops : List Op, ∀ e ∈ (Accounts1.run Accounts1.init ops).holdings, pyUpper e.1 = e.1) ∧
    (∀ (a : Accounts1.Account) (s1 s2 : String) (q : ℤ) (p : ℚ),
      (∀ e ∈ a.holdings, 0 < e.2) → 0 < q → pyUpper s1 = pyUpper s2 →
      get_share_price s1 = some p → p * (q : ℚ) ≤ a.cash_balance →
      ∃ b c : Accounts1.Account,
        Accounts1.buy_shares a s1 (PyNum.int q) = PyResult.ok b ∧
        Accounts1.sell_shares b s2 (PyNum.int q) = PyResult.ok c ∧
        c.cash_balance = a.cash_balance ∧ c.holdings = a.holdings) := by
  constructor
  · have gen : ∀ (ops : List Op) (a : Accounts1.Account),
        (∀ e ∈ a.holdings, pyUpper e.1 = e.1) →
        ∀ e ∈ (Accounts1.run a ops).holdings, pyUpper e.1 = e.1 := by
      intro ops
      induction ops with
      | nil => intro a h; simpa [Accounts1.run] using h
      | cons op t ih =>
        intro a h
        have h1 := Accounts1.step_upper a op h
        simpa [Accounts1.run, List.foldl_cons] using ih _ h1
    exact fun ops => gen ops Accounts1.init (by simp [Accounts1.init, Accounts1.mkAccount])
  · intro a s1 s2 q p hwf hq hsym hp hcost
    exact ⟨buyOutcome1 a s1 q p, sellOutcome1 (buyOutcome1 a s1 q p) s1 q p,
      Accounts1.buy_shares_ok a s1 q p hq hp hcost,
      (Accounts1.sell_after_buy1 a s1 s2 q p hwf hq hsym hp).1,
      by show a.cash_balance - p * (q : ℚ) + p * (q : ℚ) = a.cash_balance; ring,
      (Accounts1.sell_after_buy1 a s1 s2 q p hwf hq hsym hp).2⟩

/-- C3 amended witness: buying lowercase "aapl" and selling uppercase
"AAPL" on a concrete implementation-1 account with cash 1500. -/
theorem claim3_amended_witness :
    (0 : ℤ) < 10 ∧ pyUpper "aapl" = pyUpper "AAPL" ∧ get_share_price "aapl" = some 150 ∧
    (∃ b c : Accounts1.Account,
      Accounts1.buy_shares c8acct1 "aapl" (PyNum.int 10) = PyResult.ok b ∧
      Accounts1.sell_shares b "AAPL" (PyNum.int 10) = PyResult.ok c ∧
      c.cash_balance = c8acct1.cash_balance ∧ c.holdings = c8acct1.holdings) :=
  ⟨by norm_num, by decide, rfl,
    claim3_amended.2 c8acct1 "aapl" "AAPL" 10 150 (by simp [c8acct1]) (by norm_num)
      (by decide) rfl (by push_cast; norm_num [c8acct1])⟩

theorem get_share_price_spec {s : String} {p : ℚ} (h : get_share_price s = some p) :
    (pyUpper s = "AAPL" ∨ pyUpper s = "GOOGL" ∨ pyUpper s = "TSLA") ∧
    (p = 150 ∨ p = 2800 ∨ p = 700) := by
  unfold get_share_price at h
  simp only [getVal?] at h
  split at h <;> rename_i h1
  · rw [Option.some_inj] at h
    exact ⟨Or.inl h1.symm, Or.inl h.symm⟩
  · split at h <;> rename_i h2
    · rw [Option.some_inj] at h
      exact ⟨Or.inr (Or.inl h2.symm), Or.inr (Or.inl h.symm)⟩
    · split at h <;> rename_i h3
      · rw [Option.some_inj] at h
        exact ⟨Or.inr (Or.inr h3.symm), Or.inr (Or.inr h.symm)⟩
      · exact Option.noConfusion h

theorem get_share_price_key_ne_empty {s : String} {p : ℚ}
    (h : get_share_price s = some p) : pyUpper s ≠ "" := by
  rcases (get_share_price_spec h).1 with hk | hk | hk <;> rw [hk] <;> decide

theorem get_share_price_int {s : String} {p : ℚ} (h : get_share_price s = some p) :
    ∃ n : ℤ, p = (n : ℚ) := by
  rcases (get_share_price_spec h).2 with hp | hp | hp
  · exact ⟨150, by rw [hp]; norm_num⟩
  · exact ⟨2800, by rw [hp]; norm_num⟩
  · exact ⟨700, by rw [hp]; norm_num⟩

theorem pyRound2_int_mul {p : ℚ} (n : ℤ) (hp : p = (n : ℚ)) (x : ℚ) (m : ℤ)
    (hx : x = (m : ℚ)) : pyRound2 (p * x) = p * x :=
  pyRound2_eq_self (n * m * 100) (by rw [hp, hx]; push_cast; ring)

theorem replayBal2_append (ts : List Accounts2.Tx) (t : Accounts2.Tx) :
    replayBalance2 (ts ++ [t]) = replayBalStep2 (replayBalance2 ts) t := by
  unfold replayBalance2
  rw [List.foldl_append]
  rfl

theorem replayHold2_append (ts : List Accounts2.Tx) (t : Accounts2.Tx) :
    replayHoldings2 (ts ++ [t]) = replayHoldStep2 (replayHoldings2 ts) t := by
  unfold replayHoldings2
  rw [List.foldl_append]
  rfl

theorem replayBal1_append (ts : List Accounts1.TxRec) (t : Accounts1.TxRec) :
    replayBalance1 (ts ++ [t]) = replayBalStep1 (replayBalance1 ts) t := by
  unfold replayBalance1
  rw [List.foldl_append]
  rfl

theorem replayHold1_append (ts : List Accounts1.TxRec) (t : Accounts1.TxRec) :
    replayHoldings1 (ts ++ [t]) = replayHoldStep1 (replayHoldings1 ts) t := by
  unfold replayHoldings1
  rw [List.foldl_append]
  rfl

/-- C2 helper: one implementation-2 operation preserves the invariant
that the cached balance and holdings equal the replay of the recorded
transaction history. -/
theorem Accounts2.step_replay (a : Accounts2.Account) (op : Op)
    (h1 : a.balance = replayBalance2 a.transactions)
    (h2 : a.holdings = replayHoldings2 a.transactions) :
    ((Accounts2.step a op).state).balance =
      replayBalance2 ((Accounts2.step a op).state).transactions ∧
    ((Accounts2.step a op).state).holdings =
      replayHoldings2 ((Accounts2.step a op).state).transactions := by
  cases op with
  | deposit x =>
    simp only [Accounts2.step]
    unfold Accounts2.deposit
    split
    · exact ⟨h1, h2⟩
    · simp only [PyResult.state, Accounts2.add_transaction]
      constructor
      · rw [replayBal2_append]
        unfold replayBalStep2
        rw [if_pos rfl, ← h1]
      · rw [replayHold2_append]
        unfold replayHoldStep2
        rw [if_neg (fun hc => (by decide : ("DEPOSIT" : String) ≠ "BUY") hc),
          if_neg (fun hc => (by decide : ("DEPOSIT" : String) ≠ "SELL") hc)]
        exact h2
  | withdraw x =>
    simp only [Accounts2.step]
    unfold Accounts2.withdraw
    split
    · exact ⟨h1, h2⟩
    · split
      · exact ⟨h1, h2⟩
      · simp only [PyResult.state, Accounts2.add_transaction]
        constructor
        · rw [replayBal2_append]
          unfold replayBalStep2
          rw [if_neg (fun hc => (by decide : ("WITHDRAWAL" : String) ≠ "DEPOSIT") hc),
            if_pos rfl, ← h1]
        · rw [replayHold2_append]
          unfold replayHoldStep2
          rw [if_neg (fun hc => (by decide : ("WITHDRAWAL" : String) ≠ "BUY") hc),
            if_neg (fun hc => (by decide : ("WITHDRAWAL" : String) ≠ "SELL") hc)]
          exact h2
  | buy s q =>
    simp only [Accounts2.step]
    unfold Accounts2.buy
    split
    · exact ⟨h1, h2⟩
    · split
      · exact ⟨h1, h2⟩
      · split
        · exact ⟨h1, h2⟩
        · simp only [PyResult.state, Accounts2.add_transaction]
          constructor
          · rw [replayBal2_append]
            unfold replayBalStep2
            rw [if_neg (fun hc => (by decide : ("BUY" : String) ≠ "DEPOSIT") hc),
              if_neg (fun hc => (by decide : ("BUY" : String) ≠ "WITHDRAWAL") hc),
              if_pos rfl, ← h1]
          · rw [replayHold2_append]
            unfold replayHoldStep2
            rw [if_pos rfl]
            show setKey a.holdings s (getValD a.holdings s 0 + q.toQ) =
              setKey (replayHoldings2 a.transactions) s
                (getValD (replayHoldings2 a.transactions) s 0 + q.toQ)
            rw [← h2]
  | sell s q =>
    simp only [Accounts2.step]
    unfold Accounts2.sell
    split
    · exact ⟨h1, h2⟩
    · split
      · exact ⟨h1, h2⟩
      · split
        · exact ⟨h1, h2⟩
        · simp only [PyResult.state, Accounts2.add_transaction]
          constructor
          · rw [replayBal2_append]
            unfold replayBalStep2
            rw [if_neg (fun hc => (by decide : ("SELL" : String) ≠ "DEPOSIT") hc),
              if_neg (fun hc => (by decide : ("SELL" : String) ≠ "WITHDRAWAL") hc),
              if_neg (fun hc => (by decide : ("SELL" : String) ≠ "BUY") hc),
              if_pos rfl, ← h1]
          · rw [replayHold2_append]
            unfold replayHoldStep2
            rw [if_neg (fun hc => (by decide : ("SELL" : String) ≠ "BUY") hc),
              if_pos rfl]
            show (if getValD a.holdings s 0 - q.toQ = 0 then delKey a.holdings s
                else setKey a.holdings s (getValD a.holdings s 0 - q.toQ)) =
              (if getValD (replayHoldings2 a.transactions) s 0 - q.toQ = 0 then
                delKey (replayHoldings2 a.transactions) s
              else setKey (replayHoldings2 a.transactions) s
                (getValD (replayHoldings2 a.transactions) s 0 - q.toQ))
            rw [← h2]

/-- C2 helper: one implementation-1 operation preserves the invariant
that the cached holdings equal the replay of the recorded history
(symbols and quantities are recorded exactly; only cash amounts are
rounded). -/
theorem Accounts1.step_replay_hold (a : Accounts1.Account) (op : Op)
    (h2 : a.holdings = replayHoldings1 a.transactions) :
    ((Accounts1.step a op).state).holdings =
      replayHoldings1 ((Accounts1.step a op).state).transactions := by
  cases op with
  | deposit x =>
    simp only [Accounts1.step]
    unfold Accounts1.deposit
    split
    · exact h2
    · simp only [PyResult.state, Accounts1.record_transaction]
      rw [replayHold1_append]
      unfold replayHoldStep1
      rw [if_neg (fun hc => (by decide : ("deposit" : String) ≠ "buy") hc),
        if_neg (fun hc => (by decide : ("deposit" : String) ≠ "sell") hc)]
      exact h2
  | withdraw x =>
    simp only [Accounts1.step]
    unfold Accounts1.withdraw
    split
    · exact h2
    · split
      · exact h2
      · simp only [PyResult.state, Accounts1.record_transaction]
        rw [replayHold1_append]
        unfold replayHoldStep1
        rw [if_neg (fun hc => (by decide : ("withdrawal" : String) ≠ "buy") hc),
          if_neg (fun hc => (by decide : ("withdrawal" : String) ≠ "sell") hc)]
        exact h2
  | buy s q =>
    simp only [Accounts1.step]
    unfold Accounts1.buy_shares
    split
    · exact h2
    · split
      · exact h2
      · rename_i p hp
        split
        · exact h2
        · have hne : pyUpper s ≠ "" := by
            have := get_share_price_key_ne_empty hp
            rwa [pyUpper_idem] at this
          have hsf : (if pyUpper s = "" then none else some (pyUpper (pyUpper s))) =
              some (pyUpper s) := by
            rw [if_neg hne, pyUpper_idem]
          simp only [PyResult.state, Accounts1.record_transaction]
          rw [replayHold1_append]
          unfold replayHoldStep1
          rw [if_pos rfl]
          simp only [hsf]
          show setKey a.holdings (pyUpper s) (getValD a.holdings (pyUpper s) 0 + q.toQ) =
            setKey (replayHoldings1 a.transactions) (pyUpper s)
              (getValD (replayHoldings1 a.transactions) (pyUpper s) 0 + q.toQ)
          rw [← h2]
  | sell s q =>
    simp only [Accounts1.step]
    unfold Accounts1.sell_shares
    split
    · exact h2
    · split
      · exact h2
      · split
        · exact h2
        · rename_i p hp
          have hne : pyUpper s ≠ "" := by
            have := get_share_price_key_ne_empty hp
            rwa [pyUpper_idem] at this
          have hsf : (if pyUpper s = "" then none else some (pyUpper (pyUpper s))) =
              some (pyUpper s) := by
            rw [if_neg hne, pyUpper_idem]
          simp only [PyResult.state, Accounts1.record_transaction]
          rw [replayHold1_append]
          unfold replayHoldStep1
          rw [if_neg (fun hc => (by decide : ("sell" : String) ≠ "buy") hc), if_pos rfl]
          simp only [hsf]
          show (if getValD a.holdings (pyUpper s) 0 - q.toQ = 0 then
              delKey (setKey a.holdings (pyUpper s) (getValD a.holdings (pyUpper s) 0 - q.toQ))
                (pyUpper s)
            else setKey a.holdings (pyUpper s) (getValD a.holdings (pyUpper s) 0 - q.toQ)) =
            (if getValD (replayHoldings1 a.transactions) (pyUpper s) 0 - q.toQ = 0 then
              delKey (setKey (replayHoldings1 a.transactions) (pyUpper s)
                (getValD (replayHoldings1 a.transactions) (pyUpper s) 0 - q.toQ)) (pyUpper s)
            else setKey (replayHoldings1 a.transactions) (pyUpper s)
              (getValD (replayHoldings1 a.transactions) (pyUpper s) 0 - q.toQ))
          rw [← h2]

/-- C2 helper: one implementation-1 operation whose cash amount is exact
to two decimal places preserves the invariant that the cached balance
equals the replay of the recorded (rounded) history. -/
theorem Accounts1.step_replay_bal (a : Accounts1.Account) (op : Op) (hex : opExact op)
    (h1 : a.cash_balance = replayBalance1 a.transactions) :
    ((Accounts1.step a op).state).cash_balance =
      replayBalance1 ((Accounts1.step a op).state).transactions := by
  cases op with
  | deposit x =>
    simp only [Accounts1.step]
    unfold Accounts1.deposit
    split
    · exact h1
    · simp only [PyResult.state, Accounts1.record_transaction]
      rw [replayBal1_append]
      unfold replayBalStep1
      rw [if_pos rfl]
      show a.cash_balance + x = replayBalance1 a.transactions + pyRound2 x
      rw [hex, ← h1]
  | withdraw x =>
    simp only [Accounts1.step]
    unfold Accounts1.withdraw
    split
    · exact h1
    · split
      · exact h1
      · simp only [PyResult.state, Accounts1.record_transaction]
        rw [replayBal1_append]
        unfold replayBalStep1
        rw [if_neg (fun hc => (by decide : ("withdrawal" : String) ≠ "deposit") hc),
          if_pos rfl]
        show a.cash_balance - x = replayBalance1 a.transactions - pyRound2 x
        rw [hex, ← h1]
  | buy s q =>
    simp only [Accounts1.step]
    unfold Accounts1.buy_shares
    split <;> rename_i hq
    · exact h1
    · split
      · exact h1
      · rename_i p hp
        split
        · exact h1
        · obtain ⟨n, hn⟩ := get_share_price_int hp
          push_neg at hq
          obtain ⟨m, rfl⟩ : ∃ m : ℤ, q = PyNum.int m := by
            cases q with
            | int m => exact ⟨m, rfl⟩
            | float y => exact absurd rfl hq.1
          have hamt : pyRound2 (p * (PyNum.int m).toQ) = p * (PyNum.int m).toQ :=
            pyRound2_int_mul n hn _ m rfl
          simp only [PyResult.state, Accounts1.record_transaction]
          rw [replayBal1_append]
          unfold replayBalStep1
          rw [if_neg (fun hc => (by decide : ("buy" : String) ≠ "deposit") hc),
            if_neg (fun hc => (by decide : ("buy" : String) ≠ "withdrawal") hc),
            if_pos rfl]
          show a.cash_balance - p * (PyNum.int m).toQ =
            replayBalance1 a.transactions - pyRound2 (p * (PyNum.int m).toQ)
          rw [hamt, ← h1]
  | sell s q =>
    simp only [Accounts1.step]
    unfold Accounts1.sell_shares
    split <;> rename_i hq
    · exact h1
    · split
      · exact h1
      · split
        · exact h1
        · rename_i p hp
          obtain ⟨n, hn⟩ := get_share_price_int hp
          push_neg at hq
          obtain ⟨m, rfl⟩ : ∃ m : ℤ, q = PyNum.int m := by
            cases q with
            | int m => exact ⟨m, rfl⟩
            | float y => exact absurd rfl hq.1
          have hamt : pyRound2 (p * (PyNum.int m).toQ) = p * (PyNum.int m).toQ :=
            pyRound2_int_mul n hn _ m rfl
          simp only [PyResult.state, Accounts1.record_transaction]
          rw [replayBal1_append]
          unfold replayBalStep1
          rw [if_neg (fun hc => (by decide : ("sell" : String) ≠ "deposit") hc),
            if_neg (fun hc => (by decide : ("sell" : String) ≠ "withdrawal") hc),
            if_neg (fun hc => (by decide : ("sell" : String) ≠ "buy") hc),
            if_pos rfl]
          show a.cash_balance + p * (PyNum.int m).toQ =
            replayBalance1 a.transactions + pyRound2 (p * (PyNum.int m).toQ)
          rw [hamt, ← h1]

/-- C2 is false as stated for implementation 1: `deposit(0.001)` leaves
a cash balance of 0.001 but records a transaction amount rounded to
`round(0.001, 2) = 0`, so replaying the history yields 0 ≠ 0.001. -/
theorem claim2_counterexample :
    (Accounts1.run Accounts1.init [Op.deposit (1/1000)]).cash_balance ≠
      replayBalance1 (Accounts1.run Accounts1.init [Op.deposit (1/1000)]).transactions := by
  have hd : Accounts1.deposit Accounts1.init (1/1000) = PyResult.ok
      { account_id := "acct", cash_balance := 1/1000, holdings := [],
        transactions := [{ type := "deposit", amount := pyRound2 (1/1000), symbol := none,
                           quantity := none, price_per_share := none }] } := by
    unfold Accounts1.deposit Accounts1.init Accounts1.mkAccount Accounts1.record_transaction
    rw [if_neg (by norm_num)]
    simp
  have hrun : Accounts1.run Accounts1.init [Op.deposit (1/1000)] =
      { account_id := "acct", cash_balance := 1/1000, holdings := [],
        transactions := [{ type := "deposit", amount := pyRound2 (1/1000), symbol := none,
                           quantity := none, price_per_share := none }] } := by
    unfold Accounts1.run
    simp only [List.foldl_cons, List.foldl_nil, Accounts1.step]
    rw [hd]
    rfl
  rw [hrun]
  show (1 : ℚ)/1000 ≠
    replayBalance1 [⟨"deposit", pyRound2 (1/1000), none, none, none⟩]
  rw [show replayBalance1 [(⟨"deposit", pyRound2 (1/1000), none, none, none⟩ :
      Accounts1.TxRec)] = 0 + pyRound2 (1/1000) from rfl]
  rw [show pyRound2 ((1 : ℚ)/1000) = 0 by unfold pyRound2 rhe; norm_num]
  norm_num

/-- C2 amended: implementation 2's cached balance and holdings are
exactly derivable by replaying its recorded history from the empty
state, for every operation sequence; implementation 1's holdings are
likewise always derivable, and its balance is derivable whenever every
deposit/withdraw amount in the sequence is exact to two decimal places
(recorded amounts are rounded; buy/sell amounts are automatically exact
because the oracle's prices are whole numbers). -/
theorem claim2_amended :
    (∀ ops : List Op,
      (Accounts2.run Accounts2.init ops).balance =
        replayBalance2 (Accounts2.run Accounts2.init ops).transactions ∧
      (Accounts2.run Accounts2.init ops).holdings =
        replayHoldings2 (Accounts2.run Accounts2.init ops).transactions) ∧
    (∀ ops : List Op,
      (Accounts1.run Accounts1.init ops).holdings =
        replayHoldings1 (Accounts1.run Accounts1.init ops).transactions) ∧
    (∀ ops : List Op, (∀ op ∈ ops, opExact op) →
      (Accounts1.run Accounts1.init ops).cash_balance =
        replayBalance1 (Accounts1.run Accounts1.init ops).transactions) := by
  refine ⟨?_, ?_, ?_⟩
  · have gen : ∀ (ops : List Op) (b : Accounts2.Account),
        b.balance = replayBalance2 b.transactions →
        b.holdings = replayHoldings2 b.transactions →
        (Accounts2.run b ops).balance = replayBalance2 (Accounts2.run b ops).transactions ∧
        (Accounts2.run b ops).holdings = replayHoldings2 (Accounts2.run b ops).transactions := by
      intro ops
      induction ops with
      | nil =>
        intro b hb hh
        exact ⟨by simpa [Accounts2.run] using hb, by simpa [Accounts2.run] using hh⟩
      | cons op t ih =>
        intro b hb hh
        obtain ⟨hb1, hh1⟩ := Accounts2.step_replay b op hb hh
        simpa [Accounts2.run, List.foldl_cons] using ih _ hb1 hh1
    exact fun ops => gen ops Accounts2.init rfl rfl
  · have gen : ∀ (ops : List Op) (a : Accounts1.Account),
        a.holdings = replayHoldings1 a.transactions →
        (Accounts1.run a ops).holdings = replayHoldings1 (Accounts1.run a ops).transactions := by
      intro ops
      induction ops with
      | nil =>
        intro a hh
        simpa [Accounts1.run] using hh
      | cons op t ih =>
        intro a hh
        have hh1 := Accounts1.step_replay_hold a op hh
        simpa [Accounts1.run, List.foldl_cons] using ih _ hh1
    exact fun ops => gen ops Accounts1.init rfl
  · have gen : ∀ (ops : List Op) (a : Accounts1.Account), (∀ op ∈ ops, opExact op) →
        a.cash_balance = replayBalance1 a.transactions →
        (Accounts1.run a ops).cash_balance =
          replayBalance1 (Accounts1.run a ops).transactions := by
      intro ops
      induction ops with
      | nil =>
        intro a _ hb
        simpa [Accounts1.run] using hb
      | cons op t ih =>
        intro a hex hb
        have hb1 := Accounts1.step_replay_bal a op (hex op (List.mem_cons_self _ _)) hb
        simpa [Accounts1.run, List.foldl_cons] using
          ih _ (fun o ho => hex o (List.mem_cons_of_mem _ ho)) hb1
    exact fun ops hex => gen ops Accounts1.init hex rfl

/-- C2 amended witness: a single exact deposit of 100 on implementation
1, with the exactness hypothesis discharged. -/
theorem claim2_amended_witness :
    (∀ op ∈ [Op.deposit 100], opExact op) ∧
    (Accounts1.run Accounts1.init [Op.deposit 100]).cash_balance =
      replayBalance1 (Accounts1.run Accounts1.init [Op.deposit 100]).transactions := by
  have hex : ∀ op ∈ [Op.deposit 100], opExact op := by
    intro op hop
    rw [List.mem_singleton] at hop
    subst hop
    exact pyRound2_eq_self 10000 (by norm_num)
  exact ⟨hex, claim2_amended.2.2 [Op.deposit 100] hex⟩

theorem listGetD_append_left {α : Type} (l1 l2 : List α) (a : ℕ) (d : α)
    (h : a < l1.length) : (l1 ++ l2).getD a d = l1.getD a d := by
  induction l1 generalizing a with
  | nil => simp at h
  | cons x t ih =>
    cases a with
    | zero => rfl
    | succ n =>
      simp only [List.cons_append, List.getD_cons_succ]
      exact ih n (by simpa using h)

theorem listGetD_set_ne {α : Type} (l : List α) (i j : ℕ) (y : α) (d : α)
    (h : i ≠ j) : (l.set i y).getD j d = l.getD j d := by
  induction l generalizing i j with
  | nil => rfl
  | cons x t ih =>
    cases i with
    | zero =>
      cases j with
      | zero => exact absurd rfl h
      | succ m => rfl
    | succ n =>
      cases j with
      | zero => rfl
      | succ m =>
        simp only [List.set_cons_succ, List.getD_cons_succ]
        exact ih n m (fun hc => h (by rw [hc]))

/-- C9 is false in its records clause: `transactions.copy()` is a
shallow copy, so the record addresses in the returned list are shared
with the account; after the caller mutates the record it reached through
the returned copy (overwriting the amount 100 with 999), a subsequent
`get_transaction_history` on the account reports the mutated record. -/
theorem claim9_counterexample :
    Mem.readList (historyCopy c9mem c9acct).1 (historyCopy c9mem c9acct).2 = [0] ∧
    historyView ((historyCopy c9mem c9acct).1.writeRec 0
        { type := "deposit", amount := 999, symbol := none, quantity := none,
          price_per_share := none }) c9acct ≠
      historyView c9mem c9acct := by
  refine ⟨rfl, ?_⟩
  rw [show historyView ((historyCopy c9mem c9acct).1.writeRec 0
      { type := "deposit", amount := 999, symbol := none, quantity := none,
        price_per_share := none }) c9acct =
      [{ type := "deposit", amount := 999, symbol := none, quantity := none,
         price_per_share := none }] from rfl,
    show historyView c9mem c9acct =
      [{ type := "deposit", amount := 100, symbol := none, quantity := none,
         price_per_share := none }] from rfl]
  intro h
  rw [List.cons.injEq] at h
  rw [Accounts1.TxRec.mk.injEq] at h
  have : (999 : ℚ) = 100 := h.1.2.1
  norm_num at this

/-- C9 amended: the containers returned by the snapshot accessors are
fresh objects — `transactions.copy()` and `holdings.copy()` allocate new
cells distinct from the account's internal ones, and any caller mutation
of the returned list or returned dict leaves every subsequent read of
the account unchanged; but the transaction records inside the returned
list are shared by reference, and mutating one of them does change what
subsequent calls report (see the counterexample). -/
theorem claim9_amended :
    (∀ (m : Mem) (acct : AccountRef) (l' : List ℕ),
      acct.txListAddr < m.listCells.length →
      (historyCopy m acct).2 ≠ acct.txListAddr ∧
      historyView ((historyCopy m acct).1.writeList (historyCopy m acct).2 l') acct =
        historyView m acct) ∧
    (∀ (m : Mem) (acct : AccountRef) (d' : List (String × ℚ)),
      acct.holdingsAddr < m.dictCells.length →
      (holdingsCopy m acct).2 ≠ acct.holdingsAddr ∧
      holdingsView ((holdingsCopy m acct).1.writeDict (holdingsCopy m acct).2 d') acct =
        holdingsView m acct) := by
  constructor
  · intro m acct l' h
    refine ⟨Nat.ne_of_gt h, ?_⟩
    show ((((m.listCells ++ [m.readList acct.txListAddr]).set m.listCells.length l').getD
        acct.txListAddr []).map _) = ((m.listCells.getD acct.txListAddr []).map _)
    rw [listGetD_set_ne _ _ _ _ _ (Nat.ne_of_gt h),
      listGetD_append_left _ _ _ _ h]
    rfl
  · intro m acct d' h
    refine ⟨Nat.ne_of_gt h, ?_⟩
    show (((m.dictCells ++ [m.readDict acct.holdingsAddr]).set m.dictCells.length d').getD
        acct.holdingsAddr []) = (m.dictCells.getD acct.holdingsAddr [])
    rw [listGetD_set_ne _ _ _ _ _ (Nat.ne_of_gt h),
      listGetD_append_left _ _ _ _ h]

/-- C9 amended witness: the list-freshness clause on the concrete heap
`c9mem`, overwriting the returned copy with `[5]`. -/
theorem claim9_amended_witness :
    c9acct.txListAddr < c9mem.listCells.length ∧
    ((historyCopy c9mem c9acct).2 ≠ c9acct.txListAddr ∧
      historyView ((historyCopy c9mem c9acct).1.writeList (historyCopy c9mem c9acct).2 [5])
          c9acct =
        historyView c9mem c9acct) :=
  ⟨by norm_num [c9mem, c9acct], claim9_amended.1 c9mem c9acct [5]
    (by norm_num [c9mem, c9acct])⟩

/-- C5 is false as stated for implementation 2, whose holdings checks use
the raw, not the normalized, symbol.  First clause: after the reachable
sequence `deposit(750); buy("aapl", 5)` the held quantity at the
normalized key ("AAPL") is 0, below the requested 1, yet
`sell("aapl", 1)` does not raise InsufficientShares — it succeeds.
Second clause: on an account holding 5 shares under the normalized key
"XYZ", a symbol the oracle does not know, `sell("xyz", 5)` raises
InsufficientShares instead of the claimed UnknownSymbol. -/
theorem claim5_counterexample :
    (Accounts2.run Accounts2.init [Op.deposit 750, Op.buy "aapl" (PyNum.int 5)] = c5reach ∧
     getValD c5reach.holdings (pyUpper "aapl") 0 = 0 ∧
     Accounts2.sell c5reach "aapl" (PyNum.int 1) ≠
       PyResult.exn Err.insufficientShares c5reach) ∧
    (getValD c5acct.holdings (pyUpper "xyz") 0 = 5 ∧
     get_share_price "xyz" = none ∧
     Accounts2.sell c5acct "xyz" (PyNum.int 5) = PyResult.exn Err.insufficientShares c5acct ∧
     Err.insufficientShares ≠ Err.unknownSymbol) := by
  have hd : Accounts2.deposit Accounts2.init 750 = PyResult.ok
      { account_id := "acct", balance := 750, holdings := [],
        transactions := [{ transaction_id := 1, type := "DEPOSIT", amount := 750, symbol := none,
                           quantity := none, price_per_share := none }],
        initial_deposit := 750, next_transaction_id := 2 } := by
    unfold Accounts2.deposit Accounts2.init Accounts2.mkAccount Accounts2.add_transaction
    rw [if_neg (by norm_num)]
    simp
  have hb : Accounts2.buy
      { account_id := "acct", balance := 750, holdings := [],
        transactions := [{ transaction_id := 1, type := "DEPOSIT", amount := 750, symbol := none,
                           quantity := none, price_per_share := none }],
        initial_deposit := 750, next_transaction_id := 2 } "aapl" (PyNum.int 5) =
      PyResult.ok c5reach := by
    unfold Accounts2.buy
    simp only [PyNum.toQ]
    rw [if_neg (by push_cast; norm_num)]
    simp only [show get_share_price "aapl" = some 150 from rfl]
    rw [if_neg (by push_cast; norm_num)]
    rw [PyResult.ok.injEq]
    norm_num [c5reach, Accounts2.add_transaction, setKey, getValD, getVal?,
      Accounts2.Account.mk.injEq, Accounts2.Tx.mk.injEq]
  have hrun : Accounts2.run Accounts2.init [Op.deposit 750, Op.buy "aapl" (PyNum.int 5)] =
      c5reach := by
    unfold Accounts2.run
    simp only [List.foldl_cons, List.foldl_nil, Accounts2.step]
    rw [hd]
    simp only [PyResult.state]
    rw [hb]
  have hsell : Accounts2.sell c5reach "aapl" (PyNum.int 1) = PyResult.ok
      { account_id := "acct", balance := 150, holdings := [("aapl", 4)],
        transactions := c5reach.transactions ++
          [{ transaction_id := 3, type := "SELL", amount := 150, symbol := some "aapl",
             quantity := some 1, price_per_share := some 150 }],
        initial_deposit := 750, next_transaction_id := 4 } := by
    unfold Accounts2.sell
    simp only [PyNum.toQ]
    rw [if_neg (by push_cast; norm_num)]
    rw [if_neg (show ¬(getValD c5reach.holdings "aapl" 0 < ((1 : ℤ) : ℚ)) by
      rw [show getValD c5reach.holdings "aapl" 0 = 5 from rfl]
      push_cast
      norm_num)]
    simp only [show get_share_price "aapl" = some 150 from rfl]
    rw [PyResult.ok.injEq]
    norm_num [c5reach, Accounts2.add_transaction, setKey, delKey, getValD, getVal?,
      Accounts2.Account.mk.injEq, Accounts2.Tx.mk.injEq]
  refine ⟨⟨hrun, rfl, ?_⟩, rfl, rfl, ?_, by decide⟩
  · rw [hsell]
    simp
  · unfold Accounts2.sell
    simp only [PyNum.toQ]
    rw [if_neg (by push_cast; norm_num)]
    rw [if_pos (show getValD c5acct.holdings "xyz" 0 < ((5 : ℤ) : ℚ) by
      rw [show getValD c5acct.holdings "xyz" 0 = 0 from rfl]
      push_cast
      norm_num)]
